import Mathlib

/-!
# Lyric player (`src/static/lyricPlayer.js`)

A shallow embedding of the synchronized lyrics display: the timestamp parser of
`loadLyrics`, the `timeupdate` handler that moves `currentLine`, and
`displayLyrics`.

Modelling conventions.

* A JavaScript string is a `List Char`.  The regular expressions of the source
  carry no flag, so `\d` is `[0-9]`, `.` is any character but a line terminator,
  `\s` is white space or a line terminator and `$` is the end of the string.
* `audio.currentTime` is a finite double and `LyricLine.time` an integer below
  `2^53`, so their comparison is exact: the playback time is a rational number.
* Reading a property of `undefined` throws a `TypeError`; an array access that
  the source does not guard is modelled with `lyrics[i]?` and the thrown error is
  the `Outcome.typeError` result, carrying the state left behind.
* A `while` loop is run with an iteration budget; `Outcome.outOfFuel` (or `none`)
  is the only artefact of the model and the theorems show it does not occur.
-/

namespace LyricPlayer

/-! ## Data model -/

/-- One entry of the `lyrics` array: `{ time, text }`. -/
structure LyricLine where
  time : Nat
  text : List Char
deriving DecidableEq, Repr

/-- The variables of the `DOMContentLoaded` closure that the handlers read and write,
with the two pieces of the page they touch: the `enlarged` class of `.lyrics-player`
and `lyricsContainer.innerHTML`.  `scrollTimeout` is the pending timer of the scroll
handler with the milliseconds left before it fires, `none` when no timer is pending:
the source keeps in its variable the id of a timer that has fired, on which
`clearTimeout` does nothing, and each new timer clears the one before it, so at most
one timer is pending. -/
structure PlayerState where
  lyrics : List LyricLine
  currentLine : Nat
  enlarged : Bool
  userIsScrolling : Bool
  scrollTimeout : Option Nat
  innerHTML : List Char
deriving DecidableEq, Repr

/-- How a handler ends: normally, with an uncaught `TypeError` (the state is the one
at the moment of the throw), or with the iteration budget of the model used up. -/
inductive Outcome (σ : Type) where
  | ok (s : σ)
  | typeError (s : σ)
  | outOfFuel
deriving DecidableEq, Repr

/-! ## Characters and string helpers -/

/-- The line terminators of ECMAScript: LF, CR, U+2028, U+2029.  The `.` of a regular
expression without the `s` flag matches every character but these. -/
def isLineTerminator (c : Char) : Bool :=
  c.toNat == 0x0A || c.toNat == 0x0D || c.toNat == 0x2028 || c.toNat == 0x2029

/-- The characters matched by `\s` and removed by `String.prototype.trim`: the
white space of ECMAScript (TAB, VT, FF, U+FEFF and the space separators) and the
line terminators. -/
def isWhiteSpace (c : Char) : Bool :=
  c.toNat == 0x09 || c.toNat == 0x0B || c.toNat == 0x0C || c.toNat == 0x20 ||
  c.toNat == 0xA0 || c.toNat == 0x1680 || (0x2000 ≤ c.toNat && c.toNat ≤ 0x200A) ||
  c.toNat == 0x202F || c.toNat == 0x205F || c.toNat == 0x3000 || c.toNat == 0xFEFF ||
  isLineTerminator c

/-- The characters matched by `\d` (no `u` flag): `0` to `9`. -/
def isDigit (c : Char) : Bool := 48 ≤ c.toNat && c.toNat ≤ 57

/-- Method `String.prototype.trim`. -/
def trim (s : List Char) : List Char :=
  ((s.dropWhile isWhiteSpace).reverse.dropWhile isWhiteSpace).reverse

/-- The call `text.split("\n")`: the pieces between the line feeds, one more than
there are line feeds. -/
def splitNewline : List Char → List (List Char)
  | [] => [[]]
  | c :: cs =>
    if c = '\n' then [] :: splitNewline cs
    else
      match splitNewline cs with
      | [] => [[c]]
      | l :: ls => (c :: l) :: ls

/-- The call `parseInt(digits, 10)` on a string of decimal digits. -/
def parseInt10 (digits : List Char) : Nat :=
  digits.foldl (fun acc c => acc * 10 + (c.toNat - 48)) 0

/-! ## The regular expressions -/

/-- The tail `(.+)$` of both line patterns: the rest of the string, when it is not
empty and holds no line terminator; the result is the captured group. -/
def matchDotPlusEnd (s : List Char) : Option (List Char) :=
  if s ≠ [] ∧ s.all (fun c => !isLineTerminator c) then some s else none

/-- The tail `\s*(.+)$` of both line patterns: `\s*` is greedy and gives characters
back when the rest fails; the result is the captured group `(.+)`. -/
def matchSpacesText : List Char → Option (List Char)
  | [] => matchDotPlusEnd []
  | c :: cs =>
    if isWhiteSpace c then
      match matchSpacesText cs with
      | some r => some r
      | none => matchDotPlusEnd (c :: cs)
    else matchDotPlusEnd (c :: cs)

/-- The pattern `\[(\d{2}):(\d{2})\]` tried at the head of `s`: the two groups. -/
def matchTimestampAt : List Char → Option (List Char × List Char)
  | c0 :: m1 :: m2 :: c3 :: s1 :: s2 :: c6 :: _ =>
    if c0 = '[' ∧ isDigit m1 ∧ isDigit m2 ∧ c3 = ':' ∧ isDigit s1 ∧ isDigit s2 ∧ c6 = ']'
    then some ([m1, m2], [s1, s2]) else none
  | _ => none

/-- The call `timestamp.match(/\[(\d{2}):(\d{2})\]/)`: the pattern is not anchored, so
it is tried at every position from the left. -/
def searchTimestamp : List Char → Option (List Char × List Char)
  | [] => none
  | c :: cs =>
    match matchTimestampAt (c :: cs) with
    | some r => some r
    | none => searchTimestamp cs

/-- Function `parseTimestamp(timestamp)`. -/
def parseTimestamp (timestamp : List Char) : Nat :=
  match searchTimestamp timestamp with
  | none => 0
  | some (mm, ss) =>
    let minutes := parseInt10 mm
    let seconds := parseInt10 ss
    minutes * 60 + seconds

/-- The result of `line.match(/^\[(\d{2}):(\d{2})\]\s*(.+)$/)`: `match[0]` and
`match[3]`, the two entries that the caller reads. -/
structure TimedMatch where
  whole : List Char
  rest : List Char
deriving DecidableEq, Repr

/-- The call `line.match(/^\[(\d{2}):(\d{2})\]\s*(.+)$/)`. -/
def matchTimedLine (line : List Char) : Option TimedMatch :=
  match matchTimestampAt line with
  | none => none
  | some _ =>
    match matchSpacesText (line.drop 7) with
    | none => none
    | some rest => some ⟨line, rest⟩

/-- The call `lines[0].match(/^\[TITLE\]\s*(.+)$/)`: the group `match[1]`. -/
def matchTitleLine (line : List Char) : Option (List Char) :=
  if "[TITLE]".toList.isPrefixOf line then matchSpacesText (line.drop 7) else none

/-! ## loadLyrics: from the text of the file to the `lyrics` array -/

/-- The callback of `lines.map(...)`, with `null` as `none`. -/
def parseLine (line : List Char) : Option LyricLine :=
  match matchTimedLine line with
  | none => none
  | some m => some { time := parseTimestamp m.whole, text := trim m.rest }

/-- What the parsing part of `loadLyrics` produces: the variable `lyricsTitle`
(`null` is `none`), the title carried by the `lyricsTitleReady` event when one is
dispatched, and the `lyrics` array. -/
structure ParsedLyrics where
  lyricsTitle : Option (List Char)
  titleEvent : Option (List Char)
  lyrics : List LyricLine
deriving DecidableEq, Repr

/-- The lines kept by `text.split("\n").filter(line => line.trim())`. -/
def nonBlankLines (text : List Char) : List (List Char) :=
  (splitNewline text).filter (fun line => trim line ≠ [])

/-- The title step of `loadLyrics`: the value of `lyricsTitle` and the lines left. -/
def extractTitle (lines : List (List Char)) : Option (List Char) × List (List Char) :=
  match lines with
  | [] => (none, [])
  | first :: rest =>
    if "[TITLE]".toList.isPrefixOf first then
      match matchTitleLine first with
      | some m1 => (some (trim m1), rest)
      | none => (none, first :: rest)
    else (none, first :: rest)

/-- The step `if (lyricsTitle) window.dispatchEvent(...)`: the title carried by the
event, when `lyricsTitle` is neither `null` nor the empty string. -/
def dispatchedTitle (lyricsTitle : Option (List Char)) : Option (List Char) :=
  match lyricsTitle with
  | some title => if title ≠ [] then some title else none
  | none => none

/-- The parsing part of `loadLyrics`, from `response.text()` to the `lyrics` array. -/
def parseLyrics (text : List Char) : ParsedLyrics :=
  let lines := nonBlankLines text
  let r := extractTitle lines
  { lyricsTitle := r.1
    titleEvent := dispatchedTitle r.1
    lyrics := r.2.filterMap parseLine }

/-! ## displayLyrics -/

/-- The template `<span class='lyric-word'>${line.text}</span>`, with the class
`current` added for the current line. -/
def spanWord (current : Bool) (text : List Char) : List Char :=
  (if current then "<span class='lyric-word current'>".toList
    else "<span class='lyric-word'>".toList) ++ text ++ "</span>".toList

/-- The template `<div class='lyric-line'>${...}</div>`, with the class `current`
added for the current line. -/
def divLine (current : Bool) (content : List Char) : List Char :=
  (if current then "<div class='lyric-line current'>".toList
    else "<div class='lyric-line'>".toList) ++ content ++ "</div>".toList

/-- The blank placeholder of the three-row view. -/
def nbsp : List Char := "&nbsp;".toList

/-- The enlarged rendering:
`lyrics.map((line, index) => index === currentLine ? ... : ...).join(' ')`. -/
def renderEnlarged (lyrics : List LyricLine) (currentLine : Nat) : List Char :=
  List.intercalate " ".toList
    (lyrics.enum.map (fun p => spanWord (decide (p.1 = currentLine)) p.2.text))

/-- Function `displayLyrics(forceUpdate)`. -/
def displayLyrics (forceUpdate : Bool) (s : PlayerState) : Outcome PlayerState :=
  let isEnlarged := s.enlarged
  if isEnlarged && s.userIsScrolling && !forceUpdate then .ok s
  else if isEnlarged then
    .ok { s with innerHTML := renderEnlarged s.lyrics s.currentLine }
  else
    -- first row: `lyrics[currentLine - 1].text` when `currentLine > 0`
    let row1 : Option (List Char) :=
      if s.currentLine > 0 then
        (s.lyrics[s.currentLine - 1]?).map (fun l => divLine false l.text)
      else some (divLine false nbsp)
    match row1 with
    | none => .typeError s
    | some r1 =>
      -- second row: `lyrics[currentLine].text`
      match s.lyrics[s.currentLine]? with
      | none => .typeError s
      | some line =>
        -- third row: `lyrics[currentLine + 1].text` when `currentLine < lyrics.length - 1`
        let row3 : Option (List Char) :=
          if s.currentLine < s.lyrics.length - 1 then
            (s.lyrics[s.currentLine + 1]?).map (fun l => divLine false l.text)
          else some (divLine false nbsp)
        match row3 with
        | none => .typeError s
        | some r3 => .ok { s with innerHTML := r1 ++ divLine true line.text ++ r3 }

/-! ## The `timeupdate` handler -/

/-- The condition of the first loop,
`currentLine < lyrics.length - 1 && audio.currentTime >= lyrics[currentLine + 1].time`.
The first conjunct keeps the access in range. -/
def forwardCond (lyrics : List LyricLine) (t : ℚ) (currentLine : Nat) : Bool :=
  if h : currentLine < lyrics.length - 1 then
    decide ((lyrics[currentLine + 1].time : ℚ) ≤ t)
  else false

/-- The condition of the second loop,
`currentLine > 0 && audio.currentTime < lyrics[currentLine].time`.  The access is
guarded by `currentLine > 0` only: out of range it throws, which is `none`. -/
def backwardCond (lyrics : List LyricLine) (t : ℚ) (currentLine : Nat) : Option Bool :=
  if currentLine > 0 then
    match lyrics[currentLine]? with
    | none => none
    | some line => some (decide (t < (line.time : ℚ)))
  else some false

/-- First loop of the handler, `while (forwardCond) currentLine++;`, run with a
budget of `fuel` iterations.  The result is the final index with the unused budget,
`none` when an iteration is due and the budget is used up. -/
def scanForward (lyrics : List LyricLine) (t : ℚ) : Nat → Nat → Option (Nat × Nat)
  | 0, currentLine =>
    if forwardCond lyrics t currentLine then none else some (currentLine, 0)
  | fuel + 1, currentLine =>
    if forwardCond lyrics t currentLine then scanForward lyrics t fuel (currentLine + 1)
    else some (currentLine, fuel + 1)

/-- Second loop of the handler, `while (backwardCond) currentLine--;`, run with a
budget of `fuel` iterations.  A throwing condition ends the handler with
`Outcome.typeError` at the index reached. -/
def scanBackward (lyrics : List LyricLine) (t : ℚ) : Nat → Nat → Outcome (Nat × Nat)
  | 0, currentLine =>
    match backwardCond lyrics t currentLine with
    | none => .typeError (currentLine, 0)
    | some true => .outOfFuel
    | some false => .ok (currentLine, 0)
  | fuel + 1, currentLine =>
    match backwardCond lyrics t currentLine with
    | none => .typeError (currentLine, fuel + 1)
    | some true => scanBackward lyrics t fuel (currentLine - 1)
    | some false => .ok (currentLine, fuel + 1)

/-- The listener of `timeupdate`, at playback time `t = audio.currentTime`; `fuel`
bounds the iterations of the two loops together. -/
def timeupdate (fuel : Nat) (t : ℚ) (s : PlayerState) : Outcome PlayerState :=
  if s.lyrics.length = 0 then .ok s
  else
    match scanForward s.lyrics t fuel s.currentLine with
    | none => .outOfFuel
    | some (c1, fuel1) =>
      match scanBackward s.lyrics t fuel1 c1 with
      | .outOfFuel => .outOfFuel
      | .typeError (c2, _) => .typeError { s with currentLine := c2 }
      | .ok (c2, _) => displayLyrics false { s with currentLine := c2 }

/-- The index part of the handler: `advance(t, i)` of the specification, the value of
`currentLine` after one run started at `i`. -/
def advance (lyrics : List LyricLine) (fuel : Nat) (t : ℚ) (i : Nat) : Option Nat :=
  match timeupdate fuel t ⟨lyrics, i, false, false, none, []⟩ with
  | .ok s => some s.currentLine
  | _ => none

/-- A document with the given times and empty texts, for examples. -/
def linesAt (ts : List Nat) : List LyricLine := ts.map (fun n => ⟨n, []⟩)

/-! ## Predicates used in the statements -/

/-- Index `k` is a resting point of the handler at time `t`: neither loop moves. -/
def Settled (lyrics : List LyricLine) (t : ℚ) (k : Nat) : Prop :=
  (∀ l, lyrics[k + 1]? = some l → t < (l.time : ℚ)) ∧
    (k = 0 ∨ ∃ l, lyrics[k]? = some l ∧ (l.time : ℚ) ≤ t)

/-- The three rows of the compact view for an index in range. -/
def compactHTML (lyrics : List LyricLine) (k : Nat) (hk : k < lyrics.length) : List Char :=
  divLine false (if h : 0 < k then lyrics[k - 1].text else nbsp) ++
    divLine true lyrics[k].text ++
    divLine false (if h : k < lyrics.length - 1 then lyrics[k + 1].text else nbsp)

/-- The shape of a timed line in the words of the specification: `[`, two decimal
digits, `:`, two decimal digits, `]`, optional white space, then at least one
character of text up to the end of the line.  `textChar` says which characters the
text may hold. -/
def TimedLineShape (textChar : Char → Prop) (line : List Char) : Prop :=
  ∃ m1 m2 s1 s2 : Char, ∃ ws txt : List Char,
    line = '[' :: m1 :: m2 :: ':' :: s1 :: s2 :: ']' :: (ws ++ txt) ∧
    isDigit m1 = true ∧ isDigit m2 = true ∧ isDigit s1 = true ∧ isDigit s2 = true ∧
    (∀ c ∈ ws, isWhiteSpace c = true) ∧ txt ≠ [] ∧ ∀ c ∈ txt, textChar c

/-- The value of a decimal digit. -/
def digitValue (c : Char) : Nat := c.toNat - 48

/-! ## The toggle, the scroll handler and its timer -/

/-- The listener of `click` on `.lyrics-enlarge-icon`:
`player.classList.toggle('enlarged'); userIsScrolling = false; displayLyrics(true);`. -/
def toggleClick (s : PlayerState) : Outcome PlayerState :=
  displayLyrics true { s with enlarged := !s.enlarged, userIsScrolling := false }

/-- The listener of `scroll` on `.lyrics-scroll`: nothing outside the enlarged mode;
otherwise `userIsScrolling = true`, the pending timer is cleared and a timer of
2000 ms is started. -/
def scroll (s : PlayerState) : PlayerState :=
  if !s.enlarged then s
  else { s with userIsScrolling := true, scrollTimeout := some 2000 }

/-- The callback of the timer of the scroll handler:
`userIsScrolling = false; displayLyrics(true);`.  The timer is no longer pending. -/
def scrollTimerFired (s : PlayerState) : Outcome PlayerState :=
  displayLyrics true { s with userIsScrolling := false, scrollTimeout := none }

/-- The passing of `ms` milliseconds with no other event: a pending timer with more
than `ms` left keeps the difference, a pending timer with at most `ms` left fires. -/
def elapse (ms : Nat) (s : PlayerState) : Outcome PlayerState :=
  match s.scrollTimeout with
  | none => .ok s
  | some left =>
    if ms < left then .ok { s with scrollTimeout := some (left - ms) }
    else scrollTimerFired s

/-- The events of the page after the listeners are registered. -/
inductive Event where
  | timeupdate (t : ℚ)
  | click
  | scroll
  | elapse (ms : Nat)
deriving DecidableEq, Repr

/-- One event handled.  The `timeupdate` listener gets the budget `lyrics.length - 1`,
which is enough for its two loops. -/
def step (e : Event) (s : PlayerState) : Outcome PlayerState :=
  match e with
  | .timeupdate t => timeupdate (s.lyrics.length - 1) t s
  | .click => toggleClick s
  | .scroll => .ok (scroll s)
  | .elapse ms => elapse ms s

/-- A sequence of events handled in order, up to the first uncaught error. -/
def run : List Event → PlayerState → Outcome PlayerState
  | [], s => .ok s
  | e :: es, s =>
    match step e s with
    | .ok s' => run es s'
    | .typeError s' => .typeError s'
    | .outOfFuel => .outOfFuel

/-! ## loadLyrics: after the fetch -/

/-- What `await fetch(lyricsPath)` and `await response.text()` give: an error with its
message (a rejected promise, or the `HTTP ...` error thrown when `response.ok` is
false), or the text of the file. -/
inductive Fetched where
  | failed (message : List Char)
  | text (body : List Char)
deriving DecidableEq, Repr

/-- The indicator set when no line was parsed. -/
def noLyricsHTML : List Char := "<span style='color: #f88'>No lyrics found</span>".toList

/-- The message set by the `catch` block. -/
def errorHTML (message : List Char) : List Char :=
  "<span style='color: #f88'>Error loading lyrics: ".toList ++ message ++ "</span>".toList

/-- Function `loadLyrics`, from the result of the fetch on.  `typeErrorMessage` is the
message that the engine gives to a `TypeError` thrown inside the `try` block. -/
def loadLyrics (typeErrorMessage : List Char) (r : Fetched) (s : PlayerState) :
    PlayerState :=
  match r with
  | .failed message => { s with innerHTML := errorHTML message }
  | .text body =>
    let s1 := { s with lyrics := (parseLyrics body).lyrics }
    if s1.lyrics.length > 0 then
      match displayLyrics true s1 with
      | .ok s2 => s2
      | .typeError s2 => { s2 with innerHTML := errorHTML typeErrorMessage }
      | .outOfFuel => s1
    else { s1 with innerHTML := noLyricsHTML }

/-- The state when the listeners are registered and `loadLyrics` has not finished:
no line, index `0`, compact mode, the content `html` that the page gives to the
container. -/
def initialState (html : List Char) : PlayerState :=
  ⟨[], 0, false, false, none, html⟩

/-! ## The fallback path of `waitForLyricsPath` -/

/-- The call `s.split(sep)` for a separator of one character. -/
def splitOnChar (sep : Char) : List Char → List (List Char)
  | [] => [[]]
  | c :: cs =>
    if c = sep then [] :: splitOnChar sep cs
    else
      match splitOnChar sep cs with
      | [] => [[c]]
      | l :: ls => (c :: l) :: ls

/-- The call `s.includes(sub)`. -/
def includes (s sub : List Char) : Bool :=
  s.tails.any (fun t => sub.isPrefixOf t)

/-- The entries of a `URLSearchParams` object, names and values decoded, in order.
Building them from `window.location.search` is the work of the browser. -/
abbrev SearchParams := List (List Char × List Char)

/-- Method `URLSearchParams.prototype.get`: the first value with the name, or `null`. -/
def paramsGet (params : SearchParams) (name : List Char) : Option (List Char) :=
  (params.find? (fun p => p.1 = name)).map (fun p => p.2)

/-- Method `URLSearchParams.prototype.has`. -/
def paramsHas (params : SearchParams) (name : List Char) : Bool :=
  params.any (fun p => p.1 = name)

/-- The values that the variable `stop` of the fallback takes. -/
inductive StopValue where
  | null
  | undefined
  | str (s : List Char)
deriving DecidableEq, Repr

/-- The text that a template literal gives for the value. -/
def StopValue.toText : StopValue → List Char
  | .null => "null".toList
  | .undefined => "undefined".toList
  | .str s => s

/-- The expression `segments.pop() || segments.pop()`: the last element when it is
not the empty string, else the element before it, `undefined` when there is none. -/
def popOrPop (segments : List (List Char)) : StopValue :=
  match segments.reverse with
  | [] => .undefined
  | last :: before =>
    if last ≠ [] then .str last
    else
      match before with
      | [] => .undefined
      | prev :: _ => .str prev

/-- The callback of the fallback timer of `waitForLyricsPath`: the path it resolves
to, from `window.location.search`, the `URLSearchParams` built from it, and
`window.location.pathname`. -/
def fallbackLyricsPath (search : List Char) (params : SearchParams)
    (pathname : List Char) : List Char :=
  let stop : StopValue :=
    if includes search "stop=".toList then
      match paramsGet params "stop".toList with
      | some v => .str v
      | none => .null
    else popOrPop (splitOnChar '/' pathname)
  "/content/".toList ++ stop.toText ++ "/lyrics.txt".toList

/-! ## TourDetailLoader (`src/test/js/detailLoader.js`) -/

/-- The member `title` of `stopInfo`: the texts for `en` and `zh`. -/
structure Title where
  en : List Char
  zh : List Char
deriving DecidableEq, Repr

/-- The member `stopInfo`; `order` is `none` when it is `undefined`. -/
structure StopInfo where
  id : List Char
  order : Option ℚ
  title : Title
deriving DecidableEq, Repr

/-- The members of `TourDetailLoader` that `parseUrl`, `setLanguage` and
`validateStop` read and write (`null` is `none`), with the item `tour-language` of
`localStorage`. -/
structure LoaderState where
  currentStop : Option (List Char)
  currentLanguage : Option (List Char)
  stopInfo : Option StopInfo
  storedLanguage : Option (List Char)
deriving DecidableEq, Repr

/-- The state set by the constructor, with the stored preference found. -/
def LoaderState.init (stored : Option (List Char)) : LoaderState :=
  ⟨none, none, none, stored⟩

/-- Constant `config.SUPPORTED_LANGUAGES`. -/
def supportedLanguages : List (List Char) := ["en".toList, "zh".toList]

/-- Constant `config.DEFAULT_LANGUAGE`. -/
def defaultLanguage : List Char := "zh".toList

/-- The names that every object inherits from `Object.prototype`: a property read
with one of them gives a function or an object, which is truthy. -/
def objectPrototypeNames : List (List Char) :=
  ["constructor".toList, "__proto__".toList, "hasOwnProperty".toList,
   "isPrototypeOf".toList, "propertyIsEnumerable".toList, "toLocaleString".toList,
   "toString".toList, "valueOf".toList, "__defineGetter__".toList,
   "__defineSetter__".toList, "__lookupGetter__".toList, "__lookupSetter__".toList]

/-- The test `this.config.LANGUAGES[lang]`: truthy for the two keys `en` and `zh` of
the table and for the inherited names. -/
def languageConfigured (lang : List Char) : Bool :=
  lang = "en".toList || lang = "zh".toList || objectPrototypeNames.contains lang

/-- Method `parseUrl`, from the `URLSearchParams` of `window.location.search` and
`window.location.pathname`. -/
def parseUrl (params : SearchParams) (pathname : List Char) (st : LoaderState) :
    LoaderState :=
  let pathSegments := (splitOnChar '/' pathname).filter (fun s => s ≠ [])
  if paramsHas params "stop".toList then
    { st with currentStop := paramsGet params "stop".toList
              currentLanguage := paramsGet params "lang".toList }
  else if pathSegments.contains "tour".toList then
    let tourIndex := pathSegments.indexOf "tour".toList
    if pathSegments.length > tourIndex + 2 then
      { st with currentLanguage := pathSegments[tourIndex + 1]?
                currentStop := pathSegments[tourIndex + 2]? }
    else st
  else if pathSegments.length > 0 then
    { st with currentStop := pathSegments[pathSegments.length - 1]? }
  else st

/-- The test `x && SUPPORTED_LANGUAGES.includes(x)` of `setLanguage`, on a value that
is `null` or a string; the empty string is falsy. -/
def isSupported (x : Option (List Char)) : Bool :=
  match x with
  | none => false
  | some l => l ≠ [] && supportedLanguages.contains l

/-- Method `setLanguage`. -/
def setLanguage (st : LoaderState) : LoaderState :=
  let lang1 : List Char :=
    if isSupported st.currentLanguage then st.currentLanguage.getD []
    else if isSupported st.storedLanguage then st.storedLanguage.getD []
    else defaultLanguage
  let lang2 : List Char := if !languageConfigured lang1 then defaultLanguage else lang1
  { st with currentLanguage := some lang2, storedLanguage := some lang2 }

/-- A value of the table of `stopOrder.json`: a number, an object with its members
`order` (`none` when absent) and `title` (`none` when absent or falsy), or another
value, of which only the truthiness matters. -/
inductive StopEntry where
  | number (n : ℚ)
  | object (order : Option ℚ) (title : Option Title)
  | other (truthy : Bool)
deriving DecidableEq, Repr

/-- The own properties of the object read from `stopOrder.json`. -/
abbrev StopOrder := List (List Char × StopEntry)

/-- The read `stopOrderData[stop]`: the own property, else an inherited one, else
`undefined`, which is `none`. -/
def stopOrderLookup (data : StopOrder) (stop : List Char) : Option StopEntry :=
  match data.find? (fun p => p.1 = stop) with
  | some p => some p.2
  | none => if objectPrototypeNames.contains stop then some (.other true) else none

/-- Truthiness of a value of the table: `0` is the falsy number. -/
def StopEntry.truthy : StopEntry → Bool
  | .number n => n ≠ 0
  | .object _ _ => true
  | .other b => b

/-- The call `slug.replace(...)` with the global pattern for one hyphen and a space as
the replacement: every hyphen becomes a space. -/
def hyphensToSpaces (slug : List Char) : List Char :=
  slug.map (fun c => if c = '-' then ' ' else c)

/-- Method `validateStop`, with `stopOrderData` (`null` is `none`): the returned value
and the state. -/
def validateStop (stopOrderData : Option StopOrder) (st : LoaderState) :
    Bool × LoaderState :=
  match st.currentStop with
  | none => (false, st)
  | some stop =>
    if stop = [] then (false, st)
    else
      match stopOrderData with
      | none => (false, st)
      | some data =>
        match stopOrderLookup data stop with
        | none => (false, st)
        | some stopEntry =>
          if !stopEntry.truthy then (false, st)
          else
            let slugTitle : Title := ⟨hyphensToSpaces stop, hyphensToSpaces stop⟩
            match stopEntry with
            | .number n =>
              (true, { st with stopInfo := some ⟨stop, some n, slugTitle⟩ })
            | .object order title =>
              (true, { st with stopInfo := some ⟨stop, order, title.getD slugTitle⟩ })
            | .other _ =>
              (true, { st with stopInfo := some ⟨stop, none, slugTitle⟩ })

/-! ## Predicates on the states and the traces -/

/-- The marks of the spans of the enlarged rendering, in order: `true` for the span
that gets the class `current`. -/
def currentMarks (lyrics : List LyricLine) (currentLine : Nat) : List Bool :=
  lyrics.enum.map (fun p => decide (p.1 = currentLine))

/-- The suppression is on: enlarged mode, `userIsScrolling` set, a timer pending. -/
def Suppressed (s : PlayerState) : Prop :=
  s.enlarged = true ∧ s.userIsScrolling = true ∧
    ∃ left, s.scrollTimeout = some left ∧ 0 < left

/-- The event neither toggles the mode nor lets the pending timer fire. -/
def quietEvent (s : PlayerState) : Event → Bool
  | .click => false
  | .elapse ms =>
    match s.scrollTimeout with
    | some left => decide (ms < left)
    | none => true
  | _ => true

/-- A sequence of events with no toggle, during which the pending timer does not
fire. -/
def Quiet : List Event → PlayerState → Prop
  | [], _ => True
  | e :: es, s => quietEvent s e = true ∧ ∀ s', step e s = .ok s' → Quiet es s'

/-- The state that a handler leaves to the next event: the state at its end, or the
state at the throw of an uncaught error, after which the page goes on handling
events.  The third case does not occur for `step`. -/
def Outcome.after {σ : Type} (s : σ) : Outcome σ → σ
  | .ok s' => s'
  | .typeError s' => s'
  | .outOfFuel => s

/-- A sequence of events handled in order, uncaught errors included. -/
def runAll : List Event → PlayerState → PlayerState
  | [], s => s
  | e :: es, s => runAll es ((step e s).after s)

/-- The suppression is scoped to the enlarged mode: `userIsScrolling` is set only
there. -/
def ModeScoped (s : PlayerState) : Prop :=
  s.userIsScrolling = true → s.enlarged = true

/-! ## The two scans -/

theorem forwardCond_eq_false (lyrics : List LyricLine) (t : ℚ) (cur : Nat)
    (h : ∀ l, lyrics[cur + 1]? = some l → t < (l.time : ℚ)) :
    forwardCond lyrics t cur = false := by
  unfold forwardCond
  split
  · have hin : cur + 1 < lyrics.length := by omega
    have := h lyrics[cur + 1] (List.getElem?_eq_getElem hin)
    simpa using this
  · rfl

theorem forwardCond_eq_true (lyrics : List LyricLine) (t : ℚ) (cur : Nat)
    (h : forwardCond lyrics t cur = true) :
    ∃ l, lyrics[cur + 1]? = some l ∧ (l.time : ℚ) ≤ t := by
  unfold forwardCond at h
  split at h
  · have hin : cur + 1 < lyrics.length := by omega
    exact ⟨lyrics[cur + 1], List.getElem?_eq_getElem hin, by simpa using h⟩
  · exact absurd h (by simp)

theorem forwardCond_false_imp (lyrics : List LyricLine) (t : ℚ) (cur : Nat)
    (h : forwardCond lyrics t cur = false) :
    ∀ l, lyrics[cur + 1]? = some l → t < (l.time : ℚ) := by
  intro l hl
  obtain ⟨hin, rfl⟩ := List.getElem?_eq_some_iff.mp hl
  unfold forwardCond at h
  rw [dif_pos (by omega)] at h
  simpa using h

theorem backwardCond_eq_false (lyrics : List LyricLine) (t : ℚ) (cur : Nat)
    (h : cur = 0 ∨ ∃ l, lyrics[cur]? = some l ∧ (l.time : ℚ) ≤ t) :
    backwardCond lyrics t cur = some false := by
  unfold backwardCond
  rcases h with h | ⟨l, hl, hle⟩
  · simp [h]
  · split
    · simp only [hl]
      simpa using hle
    · rfl

theorem scanForward_stop (lyrics : List LyricLine) (t : ℚ) (fuel cur : Nat)
    (h : ∀ l, lyrics[cur + 1]? = some l → t < (l.time : ℚ)) :
    scanForward lyrics t fuel cur = some (cur, fuel) := by
  cases fuel <;> simp [scanForward, forwardCond_eq_false lyrics t cur h]

theorem scanBackward_stop (lyrics : List LyricLine) (t : ℚ) (fuel cur : Nat)
    (h : cur = 0 ∨ ∃ l, lyrics[cur]? = some l ∧ (l.time : ℚ) ≤ t) :
    scanBackward lyrics t fuel cur = .ok (cur, fuel) := by
  cases fuel <;> simp [scanBackward, backwardCond_eq_false lyrics t cur h]

theorem scanForward_spec (lyrics : List LyricLine) (t : ℚ) :
    ∀ d cur, lyrics.length - 1 - cur ≤ d →
      ∃ j, cur ≤ j ∧ (cur < j → j < lyrics.length) ∧
        (cur < j → ∃ l, lyrics[j]? = some l ∧ (l.time : ℚ) ≤ t) ∧
        (∀ l, lyrics[j + 1]? = some l → t < (l.time : ℚ)) ∧
        ∀ fuel, j - cur ≤ fuel →
          scanForward lyrics t fuel cur = some (j, fuel - (j - cur)) := by
  intro d
  induction d with
  | zero =>
    intro cur hd
    have hstop : ∀ l, lyrics[cur + 1]? = some l → t < (l.time : ℚ) := by
      intro l hl
      have := (List.getElem?_eq_some_iff.mp hl).1
      omega
    refine ⟨cur, le_refl _, fun h => absurd h (lt_irrefl _),
      fun h => absurd h (lt_irrefl _), hstop, ?_⟩
    intro fuel _
    rw [scanForward_stop lyrics t fuel cur hstop]
    simp
  | succ d ih =>
    intro cur hd
    cases hc : forwardCond lyrics t cur with
    | false =>
      have hstop := forwardCond_false_imp lyrics t cur hc
      refine ⟨cur, le_refl _, fun h => absurd h (lt_irrefl _),
        fun h => absurd h (lt_irrefl _), hstop, ?_⟩
      intro fuel _
      rw [scanForward_stop lyrics t fuel cur hstop]
      simp
    | true =>
      obtain ⟨l, hl, hle⟩ := forwardCond_eq_true lyrics t cur hc
      have hin : cur + 1 < lyrics.length := (List.getElem?_eq_some_iff.mp hl).1
      obtain ⟨j, hj, hjn, hjt, hstop, hrun⟩ := ih (cur + 1) (by omega)
      refine ⟨j, by omega, ?_, ?_, hstop, ?_⟩
      · intro _
        rcases Nat.eq_or_lt_of_le hj with h | h
        · omega
        · exact hjn h
      · intro _
        rcases Nat.eq_or_lt_of_le hj with h | h
        · exact ⟨l, by rw [← h]; exact hl, hle⟩
        · exact hjt h
      · intro fuel hf
        obtain ⟨f, rfl⟩ : ∃ f, fuel = f + 1 := ⟨fuel - 1, by omega⟩
        rw [scanForward, if_pos hc, hrun f (by omega)]
        congr 2
        omega

theorem scanBackward_spec (lyrics : List LyricLine) (t : ℚ) :
    ∀ cur, cur < lyrics.length →
      ∃ k, k ≤ cur ∧
        (k < cur → ∃ l, lyrics[k + 1]? = some l ∧ t < (l.time : ℚ)) ∧
        (k = 0 ∨ ∃ l, lyrics[k]? = some l ∧ (l.time : ℚ) ≤ t) ∧
        ∀ fuel, cur - k ≤ fuel →
          scanBackward lyrics t fuel cur = .ok (k, fuel - (cur - k)) := by
  intro cur
  induction cur with
  | zero =>
    intro _
    refine ⟨0, le_refl _, fun h => absurd h (lt_irrefl _), Or.inl rfl, ?_⟩
    intro fuel _
    rw [scanBackward_stop lyrics t fuel 0 (Or.inl rfl)]
    simp
  | succ c ih =>
    intro hin
    by_cases hlt : t < (lyrics[c + 1].time : ℚ)
    · obtain ⟨k, hk, hkt, hrest, hrun⟩ := ih (by omega)
      have hcond : backwardCond lyrics t (c + 1) = some true := by
        unfold backwardCond
        rw [if_pos (by omega), List.getElem?_eq_getElem hin]
        simpa using hlt
      refine ⟨k, by omega, ?_, hrest, ?_⟩
      · intro _
        rcases Nat.eq_or_lt_of_le hk with h | h
        · exact ⟨lyrics[c + 1], by rw [h]; exact List.getElem?_eq_getElem hin, hlt⟩
        · exact hkt h
      · intro fuel hf
        obtain ⟨f, rfl⟩ : ∃ f, fuel = f + 1 := ⟨fuel - 1, by omega⟩
        rw [scanBackward, hcond]
        simp only [Nat.add_sub_cancel]
        rw [hrun f (by omega)]
        congr 2
        omega
    · have hrest : c + 1 = 0 ∨ ∃ l, lyrics[c + 1]? = some l ∧ (l.time : ℚ) ≤ t :=
        Or.inr ⟨lyrics[c + 1], List.getElem?_eq_getElem hin, not_lt.mp hlt⟩
      refine ⟨c + 1, le_refl _, fun h => absurd h (lt_irrefl _), hrest, ?_⟩
      intro fuel _
      rw [scanBackward_stop lyrics t fuel (c + 1) hrest]
      simp

theorem scans_settle (lyrics : List LyricLine) (t : ℚ) (cur : Nat)
    (hin : cur < lyrics.length) :
    ∃ k, k < lyrics.length ∧ Settled lyrics t k ∧
      ∀ fuel, lyrics.length - 1 ≤ fuel →
        ∃ j f1 f2, scanForward lyrics t fuel cur = some (j, f1) ∧
          scanBackward lyrics t f1 j = .ok (k, f2) := by
  obtain ⟨j, hj, hjn, hjt, hstop, hrun⟩ :=
    scanForward_spec lyrics t (lyrics.length - 1 - cur) cur (le_refl _)
  rcases Nat.eq_or_lt_of_le hj with h | h
  · subst h
    obtain ⟨k, hk, hkt, hrest, hback⟩ := scanBackward_spec lyrics t cur hin
    refine ⟨k, by omega, ⟨?_, hrest⟩, ?_⟩
    · rcases Nat.eq_or_lt_of_le hk with h | h
      · rw [h]; exact hstop
      · obtain ⟨l, hl, hlt⟩ := hkt h
        intro l' hl'
        rw [hl] at hl'
        cases hl'
        exact hlt
    · intro fuel hf
      refine ⟨cur, fuel - (cur - cur), _, hrun fuel (by omega), hback _ (by omega)⟩
  · have hrest := hjt h
    refine ⟨j, hjn h, ⟨hstop, Or.inr hrest⟩, ?_⟩
    intro fuel hf
    have := hjn h
    exact ⟨j, _, _, hrun fuel (by omega), scanBackward_stop lyrics t _ j (Or.inr hrest)⟩

theorem timeupdate_eq (s : PlayerState) (t : ℚ) (hin : s.currentLine < s.lyrics.length) :
    ∃ k, k < s.lyrics.length ∧ Settled s.lyrics t k ∧
      ∀ fuel, s.lyrics.length - 1 ≤ fuel →
        timeupdate fuel t s = displayLyrics false { s with currentLine := k } := by
  obtain ⟨k, hk, hset, hrun⟩ := scans_settle s.lyrics t s.currentLine hin
  refine ⟨k, hk, hset, ?_⟩
  intro fuel hf
  obtain ⟨j, f1, f2, h1, h2⟩ := hrun fuel hf
  unfold timeupdate
  rw [if_neg (by omega), h1]
  simp only [h2]

theorem timeupdate_settled (s : PlayerState) (t : ℚ) (fuel : Nat)
    (hne : s.lyrics.length ≠ 0) (hset : Settled s.lyrics t s.currentLine) :
    timeupdate fuel t s = displayLyrics false s := by
  unfold timeupdate
  rw [if_neg hne, scanForward_stop s.lyrics t fuel s.currentLine hset.1]
  simp only [scanBackward_stop s.lyrics t fuel s.currentLine hset.2]

theorem displayLyrics_compact (f : Bool) (s : PlayerState) (hen : s.enlarged = false)
    (hk : s.currentLine < s.lyrics.length) :
    displayLyrics f s = .ok { s with innerHTML := compactHTML s.lyrics s.currentLine hk } := by
  unfold displayLyrics compactHTML
  simp only [hen, Bool.false_and, Bool.false_eq_true, if_false]
  rw [List.getElem?_eq_getElem hk]
  by_cases h0 : 0 < s.currentLine
  · have h1 : s.currentLine - 1 < s.lyrics.length := by omega
    by_cases hl : s.currentLine < s.lyrics.length - 1
    · have h2 : s.currentLine + 1 < s.lyrics.length := by omega
      simp [h0, hl, List.getElem?_eq_getElem h1, List.getElem?_eq_getElem h2]
    · simp [h0, hl, List.getElem?_eq_getElem h1]
  · by_cases hl : s.currentLine < s.lyrics.length - 1
    · have h2 : s.currentLine + 1 < s.lyrics.length := by omega
      simp [h0, hl, List.getElem?_eq_getElem h2]
    · simp [h0, hl]

theorem displayLyrics_enlarged (f : Bool) (s : PlayerState) (hen : s.enlarged = true) :
    displayLyrics f s =
      .ok (if s.userIsScrolling && !f then s
        else { s with innerHTML := renderEnlarged s.lyrics s.currentLine }) := by
  unfold displayLyrics
  simp only [hen, Bool.true_and, if_true]
  split <;> rfl

theorem displayLyrics_ok (f : Bool) (s : PlayerState)
    (hk : s.currentLine < s.lyrics.length) :
    ∃ html, displayLyrics f s = .ok { s with innerHTML := html } := by
  rcases Bool.eq_false_or_eq_true s.enlarged with hen | hen
  · rw [displayLyrics_enlarged f s hen]
    by_cases h : (s.userIsScrolling && !f) = true
    · exact ⟨s.innerHTML, by rw [if_pos h]⟩
    · exact ⟨_, by rw [if_neg h]⟩
  · exact ⟨_, displayLyrics_compact f s hen hk⟩

theorem displayLyrics_idem (f : Bool) (s s1 : PlayerState)
    (hk : s.currentLine < s.lyrics.length) (h : displayLyrics f s = .ok s1) :
    displayLyrics f s1 = .ok s1 := by
  rcases Bool.eq_false_or_eq_true s.enlarged with hen | hen
  · rw [displayLyrics_enlarged f s hen] at h
    by_cases hc : (s.userIsScrolling && !f) = true
    · rw [if_pos hc] at h
      cases h
      rw [displayLyrics_enlarged f s hen, if_pos hc]
    · rw [if_neg hc] at h
      cases h
      have := displayLyrics_enlarged f
        { s with innerHTML := renderEnlarged s.lyrics s.currentLine } hen
      rw [this, if_neg hc]
  · rw [displayLyrics_compact f s hen hk] at h
    cases h
    exact displayLyrics_compact f
      { s with innerHTML := compactHTML s.lyrics s.currentLine hk } hen hk

/-! ## White space and `trim` -/

theorem isLineTerminator_isWhiteSpace (c : Char) (h : isLineTerminator c = true) :
    isWhiteSpace c = true := by
  unfold isWhiteSpace
  simp [h]

theorem dropWhile_ne_nil_iff (s : List Char) :
    s.dropWhile isWhiteSpace ≠ [] ↔ ∃ c ∈ s, isWhiteSpace c = false := by
  rw [Ne, List.dropWhile_eq_nil_iff]
  simp

theorem dropWhile_head_not_ws (s : List Char) (c : Char) (cs : List Char)
    (h : s.dropWhile isWhiteSpace = c :: cs) : isWhiteSpace c = false := by
  induction s with
  | nil => simp at h
  | cons a as ih =>
    rw [List.dropWhile_cons] at h
    split at h
    · exact ih h
    · rename_i hna
      cases h
      simpa using hna

theorem trim_eq_nil_iff (s : List Char) :
    trim s = [] ↔ ∀ c ∈ s, isWhiteSpace c = true := by
  unfold trim
  rw [List.reverse_eq_nil_iff, List.dropWhile_eq_nil_iff]
  constructor
  · intro h
    rw [← List.dropWhile_eq_nil_iff]
    cases hd : s.dropWhile isWhiteSpace with
    | nil => rfl
    | cons c cs =>
      have h1 := dropWhile_head_not_ws s c cs hd
      have h2 := h c (by rw [hd]; simp)
      rw [h1] at h2
      cases h2
  · intro h
    rw [List.dropWhile_eq_nil_iff.mpr h]
    simp

theorem trim_dropWhile (s : List Char) : trim (s.dropWhile isWhiteSpace) = trim s := by
  unfold trim
  rw [List.dropWhile_idempotent]

/-! ## The pattern tail `\s*(.+)$` -/

theorem matchDotPlusEnd_eq_some (s m : List Char) (h : matchDotPlusEnd s = some m) :
    m = s ∧ s ≠ [] ∧ ∀ c ∈ s, isLineTerminator c = false := by
  unfold matchDotPlusEnd at h
  split at h
  · rename_i hc
    cases h
    refine ⟨rfl, hc.1, ?_⟩
    intro c hcs
    have := List.all_eq_true.mp hc.2 c hcs
    simpa using this
  · cases h

theorem matchDotPlusEnd_of (s : List Char) (hne : s ≠ [])
    (h : ∀ c ∈ s, isLineTerminator c = false) : matchDotPlusEnd s = some s := by
  unfold matchDotPlusEnd
  rw [if_pos]
  refine ⟨hne, List.all_eq_true.mpr ?_⟩
  intro c hc
  simp [h c hc]

theorem matchSpacesText_of_text (r : List Char)
    (hne : r.dropWhile isWhiteSpace ≠ [])
    (h : ∀ c ∈ r.dropWhile isWhiteSpace, isLineTerminator c = false) :
    matchSpacesText r = some (r.dropWhile isWhiteSpace) := by
  induction r with
  | nil => simp at hne
  | cons c cs ih =>
    rw [matchSpacesText]
    by_cases hc : isWhiteSpace c = true
    · rw [List.dropWhile_cons_of_pos hc] at hne h ⊢
      rw [if_pos hc, ih hne h]
    · rw [List.dropWhile_cons_of_neg hc] at h ⊢
      rw [if_neg hc]
      exact matchDotPlusEnd_of _ (by simp) h

theorem matchSpacesText_isSome_iff (r : List Char) :
    (matchSpacesText r).isSome = true ↔
      ∃ ws txt : List Char, r = ws ++ txt ∧ (∀ c ∈ ws, isWhiteSpace c = true) ∧
        txt ≠ [] ∧ ∀ c ∈ txt, isLineTerminator c = false := by
  constructor
  · induction r with
    | nil =>
      intro h
      rw [matchSpacesText] at h
      simp [matchDotPlusEnd] at h
    | cons c cs ih =>
      intro h
      rw [matchSpacesText] at h
      have hdirect : (matchDotPlusEnd (c :: cs)).isSome = true →
          ∃ ws txt : List Char, c :: cs = ws ++ txt ∧ (∀ c ∈ ws, isWhiteSpace c = true) ∧
            txt ≠ [] ∧ ∀ c ∈ txt, isLineTerminator c = false := by
        intro hd
        obtain ⟨m, hm⟩ := Option.isSome_iff_exists.mp hd
        obtain ⟨-, hne, hlt⟩ := matchDotPlusEnd_eq_some _ _ hm
        exact ⟨[], c :: cs, rfl, by simp, hne, hlt⟩
      by_cases hc : isWhiteSpace c = true
      · rw [if_pos hc] at h
        cases hrec : matchSpacesText cs with
        | some m =>
          obtain ⟨ws, txt, hsplit, hws, hne, hlt⟩ := ih (by rw [hrec]; rfl)
          refine ⟨c :: ws, txt, by rw [hsplit]; rfl, ?_, hne, hlt⟩
          intro x hx
          rcases List.mem_cons.mp hx with rfl | hx
          · exact hc
          · exact hws x hx
        | none =>
          rw [hrec] at h
          exact hdirect h
      · rw [if_neg hc] at h
        exact hdirect h
  · rintro ⟨ws, txt, rfl, hws, hne, hlt⟩
    induction ws with
    | nil =>
      cases txt with
      | nil => exact absurd rfl hne
      | cons c cs =>
        rw [List.nil_append, matchSpacesText]
        have hd := matchDotPlusEnd_of (c :: cs) hne hlt
        by_cases hc : isWhiteSpace c = true
        · rw [if_pos hc]
          cases matchSpacesText cs with
          | some m => rfl
          | none => simp only [hd]; rfl
        · rw [if_neg hc, hd]; rfl
    | cons w ws ih =>
      have hw : isWhiteSpace w = true := hws w (by simp)
      have hrec := ih (fun c hc => hws c (List.mem_cons_of_mem _ hc))
      obtain ⟨m, hm⟩ := Option.isSome_iff_exists.mp hrec
      rw [List.cons_append, matchSpacesText, if_pos hw, hm]
      rfl

theorem matchSpacesText_eq_some (r m : List Char) (h : matchSpacesText r = some m) :
    m ≠ [] ∧ (∀ c ∈ m, isLineTerminator c = false) ∧ (∀ c ∈ m, c ∈ r) ∧
      (r.dropWhile isWhiteSpace ≠ [] → m = r.dropWhile isWhiteSpace) := by
  induction r generalizing m with
  | nil =>
    rw [matchSpacesText] at h
    simp [matchDotPlusEnd] at h
  | cons c cs ih =>
    rw [matchSpacesText] at h
    by_cases hc : isWhiteSpace c = true
    · rw [if_pos hc] at h
      cases hrec : matchSpacesText cs with
      | some m' =>
        rw [hrec] at h
        cases h
        obtain ⟨h1, h2, h3, h4⟩ := ih m hrec
        refine ⟨h1, h2, fun x hx => List.mem_cons_of_mem _ (h3 x hx), ?_⟩
        rw [List.dropWhile_cons_of_pos hc]
        exact h4
      | none =>
        rw [hrec] at h
        obtain ⟨rfl, hne, hlt⟩ := matchDotPlusEnd_eq_some _ _ h
        refine ⟨hne, hlt, fun x hx => hx, ?_⟩
        rw [List.dropWhile_cons_of_pos hc]
        intro hdne
        have := matchSpacesText_of_text cs hdne (fun x hx =>
          hlt x (List.mem_cons_of_mem _ (List.dropWhile_subset _ hx)))
        rw [hrec] at this
        cases this
    · rw [if_neg hc] at h
      obtain ⟨rfl, hne, hlt⟩ := matchDotPlusEnd_eq_some _ _ h
      refine ⟨hne, hlt, fun x hx => hx, ?_⟩
      rw [List.dropWhile_cons_of_neg hc]
      intro _
      rfl

/-! ## The timestamp pattern -/

theorem matchTimestampAt_of (m1 m2 s1 s2 : Char) (rest : List Char)
    (hm1 : isDigit m1 = true) (hm2 : isDigit m2 = true)
    (hs1 : isDigit s1 = true) (hs2 : isDigit s2 = true) :
    matchTimestampAt ('[' :: m1 :: m2 :: ':' :: s1 :: s2 :: ']' :: rest) =
      some ([m1, m2], [s1, s2]) := by
  simp [matchTimestampAt, hm1, hm2, hs1, hs2]

theorem matchTimestampAt_eq_some (line : List Char) (x : List Char × List Char)
    (h : matchTimestampAt line = some x) :
    ∃ m1 m2 s1 s2 : Char, ∃ rest : List Char,
      line = '[' :: m1 :: m2 :: ':' :: s1 :: s2 :: ']' :: rest ∧
      isDigit m1 = true ∧ isDigit m2 = true ∧ isDigit s1 = true ∧ isDigit s2 = true ∧
      x = ([m1, m2], [s1, s2]) := by
  unfold matchTimestampAt at h
  split at h
  · rename_i c0 m1 m2 c3 s1 s2 c6 rest
    split at h
    · rename_i hc
      obtain ⟨rfl, h1, h2, rfl, h3, h4, rfl⟩ := hc
      cases h
      exact ⟨m1, m2, s1, s2, rest, rfl, h1, h2, h3, h4, rfl⟩
    · cases h
  · cases h

theorem isDigit_digitValue_le (c : Char) (h : isDigit c = true) : digitValue c ≤ 9 := by
  unfold isDigit at h
  unfold digitValue
  simp only [Bool.and_eq_true, decide_eq_true_eq] at h
  omega

theorem parseInt10_pair (a b : Char) :
    parseInt10 [a, b] = digitValue a * 10 + digitValue b := by
  simp [parseInt10, digitValue]

theorem searchTimestamp_of_head (line : List Char) (x : List Char × List Char)
    (h : matchTimestampAt line = some x) : searchTimestamp line = some x := by
  cases line with
  | nil => simp [matchTimestampAt] at h
  | cons c cs => rw [searchTimestamp, h]

theorem searchTimestamp_eq_some (s : List Char) (x : List Char × List Char)
    (h : searchTimestamp s = some x) :
    ∃ m1 m2 s1 s2 : Char, isDigit m1 = true ∧ isDigit m2 = true ∧ isDigit s1 = true ∧
      isDigit s2 = true ∧ x = ([m1, m2], [s1, s2]) := by
  induction s with
  | nil => simp [searchTimestamp] at h
  | cons c cs ih =>
    rw [searchTimestamp] at h
    cases hm : matchTimestampAt (c :: cs) with
    | some y =>
      rw [hm] at h
      cases h
      obtain ⟨m1, m2, s1, s2, rest, -, h1, h2, h3, h4, hx⟩ := matchTimestampAt_eq_some _ _ hm
      exact ⟨m1, m2, s1, s2, h1, h2, h3, h4, hx⟩
    | none =>
      rw [hm] at h
      exact ih h

theorem parseTimestamp_le (s : List Char) : parseTimestamp s ≤ 99 * 60 + 99 := by
  unfold parseTimestamp
  cases h : searchTimestamp s with
  | none => simp
  | some x =>
    obtain ⟨m1, m2, s1, s2, h1, h2, h3, h4, rfl⟩ := searchTimestamp_eq_some s x h
    simp only [parseInt10_pair]
    have := isDigit_digitValue_le m1 h1
    have := isDigit_digitValue_le m2 h2
    have := isDigit_digitValue_le s1 h3
    have := isDigit_digitValue_le s2 h4
    omega

/-! ## The callback of `lines.map` -/

theorem parseLine_of_digits (m1 m2 s1 s2 : Char) (rest : List Char)
    (hm1 : isDigit m1 = true) (hm2 : isDigit m2 = true)
    (hs1 : isDigit s1 = true) (hs2 : isDigit s2 = true) :
    parseLine ('[' :: m1 :: m2 :: ':' :: s1 :: s2 :: ']' :: rest) =
      (matchSpacesText rest).map (fun m =>
        { time := (digitValue m1 * 10 + digitValue m2) * 60 +
            (digitValue s1 * 10 + digitValue s2),
          text := trim m }) := by
  have hts := matchTimestampAt_of m1 m2 s1 s2 rest hm1 hm2 hs1 hs2
  unfold parseLine matchTimedLine
  rw [hts]
  simp only [List.drop]
  cases matchSpacesText rest with
  | none => rfl
  | some m =>
    simp only [Option.map_some', parseTimestamp, searchTimestamp_of_head _ _ hts,
      parseInt10_pair]

theorem parseLine_isSome (line : List Char) (h : (parseLine line).isSome = true) :
    ∃ m1 m2 s1 s2 : Char, ∃ rest : List Char,
      line = '[' :: m1 :: m2 :: ':' :: s1 :: s2 :: ']' :: rest ∧
      isDigit m1 = true ∧ isDigit m2 = true ∧ isDigit s1 = true ∧ isDigit s2 = true ∧
      (matchSpacesText rest).isSome = true := by
  unfold parseLine matchTimedLine at h
  cases hts : matchTimestampAt line with
  | none => rw [hts] at h; cases h
  | some x =>
    obtain ⟨m1, m2, s1, s2, rest, rfl, h1, h2, h3, h4, -⟩ :=
      matchTimestampAt_eq_some _ _ hts
    refine ⟨m1, m2, s1, s2, rest, rfl, h1, h2, h3, h4, ?_⟩
    rw [hts] at h
    simp only [List.drop] at h
    cases hm : matchSpacesText rest with
    | none => rw [hm] at h; cases h
    | some m => rfl

theorem parseLine_time_le (line : List Char) (e : LyricLine) (h : parseLine line = some e) :
    e.time ≤ 99 * 60 + 99 := by
  unfold parseLine at h
  cases hm : matchTimedLine line with
  | none => rw [hm] at h; cases h
  | some m =>
    rw [hm] at h
    cases h
    exact parseTimestamp_le _

theorem parseLine_title (r : List Char) : parseLine ("[TITLE]".toList ++ r) = none := by
  show parseLine ('[' :: 'T' :: 'I' :: 'T' :: 'L' :: 'E' :: ']' :: r) = none
  have hT : isDigit 'T' = false := by decide
  simp [parseLine, matchTimedLine, matchTimestampAt, hT]

theorem parseLine_blank (line : List Char) (h : trim line = []) : parseLine line = none := by
  cases hp : parseLine line with
  | none => rfl
  | some e =>
    obtain ⟨m1, m2, s1, s2, rest, rfl, -⟩ := parseLine_isSome line (by rw [hp]; rfl)
    have := (trim_eq_nil_iff _).mp h '[' (by simp)
    exact absurd this (by decide)

/-! ## The lines that reach the callback -/

theorem filterMap_nonBlank (ls : List (List Char)) :
    (ls.filter (fun line => trim line ≠ [])).filterMap parseLine =
      ls.filterMap parseLine := by
  induction ls with
  | nil => rfl
  | cons l ls ih =>
    by_cases hb : trim l = []
    · rw [List.filter_cons_of_neg (by simpa using hb), ih]
      rw [List.filterMap_cons_none (parseLine_blank l hb)]
    · rw [List.filter_cons_of_pos (by simpa using hb)]
      cases hp : parseLine l with
      | none => rw [List.filterMap_cons_none hp, List.filterMap_cons_none hp, ih]
      | some e => rw [List.filterMap_cons_some hp, List.filterMap_cons_some hp, ih]

theorem isPrefixOf_title (first : List Char)
    (h : "[TITLE]".toList.isPrefixOf first = true) :
    ∃ r, first = "[TITLE]".toList ++ r := by
  obtain ⟨r, hr⟩ := List.isPrefixOf_iff_prefix.mp h
  exact ⟨r, hr.symm⟩

theorem filterMap_extractTitle (lines : List (List Char)) :
    (extractTitle lines).2.filterMap parseLine = lines.filterMap parseLine := by
  unfold extractTitle
  cases lines with
  | nil => rfl
  | cons first rest =>
    simp only
    split
    · rename_i hpre
      obtain ⟨r, rfl⟩ := isPrefixOf_title first hpre
      cases matchTitleLine ("[TITLE]".toList ++ r) with
      | none => rfl
      | some m1 =>
        simp only
        rw [List.filterMap_cons_none (parseLine_title r)]
    · rfl

theorem parseLyrics_lyrics (text : List Char) :
    (parseLyrics text).lyrics = (splitNewline text).filterMap parseLine := by
  show (extractTitle (nonBlankLines text)).2.filterMap parseLine = _
  rw [filterMap_extractTitle]
  exact filterMap_nonBlank _

/-! ## The title line -/

theorem matchTitleLine_title (r : List Char) :
    matchTitleLine ("[TITLE]".toList ++ r) = matchSpacesText r := by
  unfold matchTitleLine
  rw [if_pos (List.isPrefixOf_iff_prefix.mpr (List.prefix_append _ _))]
  rfl

theorem extractTitle_title (r : List Char) (rest : List (List Char)) :
    extractTitle (("[TITLE]".toList ++ r) :: rest) =
      match matchSpacesText r with
      | some m1 => (some (trim m1), rest)
      | none => (none, ("[TITLE]".toList ++ r) :: rest) := by
  unfold extractTitle
  simp only
  rw [if_pos (List.isPrefixOf_iff_prefix.mpr (List.prefix_append _ _)),
    matchTitleLine_title]

theorem extractTitle_dispatched (lines : List (List Char)) (ttl : List Char)
    (h : dispatchedTitle (extractTitle lines).1 = some ttl) :
    ∃ r rest m, lines = ("[TITLE]".toList ++ r) :: rest ∧ matchSpacesText r = some m ∧
      trim m ≠ [] ∧ ttl = trim m := by
  cases lines with
  | nil => simp [extractTitle, dispatchedTitle] at h
  | cons first rest =>
    by_cases hpre : "[TITLE]".toList.isPrefixOf first = true
    · obtain ⟨r, rfl⟩ := isPrefixOf_title first hpre
      rw [extractTitle_title] at h
      cases hm : matchSpacesText r with
      | none =>
        rw [hm] at h
        simp [dispatchedTitle] at h
      | some m =>
        rw [hm] at h
        simp only [dispatchedTitle] at h
        split at h
        · rename_i hne
          cases h
          exact ⟨r, rest, m, rfl, hm, hne, rfl⟩
        · cases h
    · unfold extractTitle at h
      simp only [if_neg hpre] at h
      simp [dispatchedTitle] at h

theorem trim_ne_nil_of_text (r : List Char) (h : ∃ c ∈ r, isWhiteSpace c = false) :
    trim r ≠ [] := by
  intro hnil
  obtain ⟨c, hc, hws⟩ := h
  have := (trim_eq_nil_iff r).mp hnil c hc
  rw [hws] at this
  cases this
/-! ## Sorted documents -/

theorem sorted_time_le (lyrics : List LyricLine)
    (hsorted : lyrics.Pairwise (fun a b => a.time ≤ b.time)) (i j : Nat)
    (hij : i ≤ j) (hj : j < lyrics.length) :
    lyrics[i].time ≤ lyrics[j].time := by
  rcases Nat.eq_or_lt_of_le hij with h | h
  · subst h; exact le_refl _
  · exact List.pairwise_iff_getElem.mp hsorted i j (by omega) hj h

theorem settled_upper (lyrics : List LyricLine) (t : ℚ)
    (hsorted : lyrics.Pairwise (fun a b => a.time ≤ b.time)) (k : Nat)
    (hset : Settled lyrics t k) (i : Nat) (hi : i < lyrics.length)
    (hle : (lyrics[i].time : ℚ) ≤ t) : i ≤ k := by
  by_contra hlt
  have hk1 : k + 1 < lyrics.length := by omega
  have h1 := hset.1 lyrics[k + 1] (List.getElem?_eq_getElem hk1)
  have h2 : (lyrics[k + 1].time : ℚ) ≤ (lyrics[i].time : ℚ) := by
    exact_mod_cast sorted_time_le lyrics hsorted (k + 1) i (by omega) hi
  linarith

theorem settled_at_or_before (lyrics : List LyricLine) (t : ℚ)
    (hsorted : lyrics.Pairwise (fun a b => a.time ≤ b.time)) (k : Nat)
    (hk : k < lyrics.length) (hset : Settled lyrics t k)
    (hex : ∃ l ∈ lyrics, (l.time : ℚ) ≤ t) : (lyrics[k].time : ℚ) ≤ t := by
  rcases hset.2 with h0 | ⟨l, hl, hle⟩
  · subst h0
    obtain ⟨l, hl, hle⟩ := hex
    obtain ⟨i, hi, rfl⟩ := List.getElem_of_mem hl
    have : (lyrics[0].time : ℚ) ≤ (lyrics[i].time : ℚ) := by
      exact_mod_cast sorted_time_le lyrics hsorted 0 i (by omega) hi
    linarith
  · obtain ⟨_, rfl⟩ := List.getElem?_eq_some_iff.mp hl
    exact hle

/-! ## Claims on the resolver -/

/-- C1: on a non-empty document sorted by time, one run of the `timeupdate` handler
with enough budget, from any index in range, leaves `currentLine` at the same index
`k`: the greatest index whose time is at most `t`, or `0` when no line has a time at
most `t`. -/
theorem timeupdate_resolves_current_line (lyrics : List LyricLine) (t : ℚ)
    (hne : lyrics ≠ [])
    (hsorted : lyrics.Pairwise (fun a b => a.time ≤ b.time)) :
    ∃ k, k < lyrics.length ∧
      ((∃ l ∈ lyrics, (l.time : ℚ) ≤ t) →
        IsGreatest {i | ∃ h : i < lyrics.length, (lyrics[i].time : ℚ) ≤ t} k) ∧
      ((∀ l ∈ lyrics, t < (l.time : ℚ)) → k = 0) ∧
      ∀ (s : PlayerState) (fuel : Nat), s.lyrics = lyrics →
        s.currentLine < lyrics.length → lyrics.length - 1 ≤ fuel →
        ∃ s', timeupdate fuel t s = .ok s' ∧ s'.currentLine = k := by
  have hpos : 0 < lyrics.length := List.length_pos.mpr hne
  obtain ⟨k, hk, hset, -⟩ := scans_settle lyrics t 0 hpos
  refine ⟨k, hk, ?_, ?_, ?_⟩
  · intro hex
    refine ⟨⟨hk, settled_at_or_before lyrics t hsorted k hk hset hex⟩, ?_⟩
    rintro i ⟨hi, hle⟩
    exact settled_upper lyrics t hsorted k hset i hi hle
  · intro hall
    rcases hset.2 with h0 | ⟨l, hl, hle⟩
    · exact h0
    · have := hall l (List.getElem?_mem hl)
      linarith
  · rintro s fuel rfl hin hf
    obtain ⟨k', hk', hset', hrun⟩ := timeupdate_eq s t hin
    obtain ⟨html, hd⟩ := displayLyrics_ok false { s with currentLine := k' } hk'
    refine ⟨_, (hrun fuel hf).trans hd, ?_⟩
    show k' = k
    apply le_antisymm
    · rcases hset'.2 with h0 | ⟨l, hl, hle⟩
      · omega
      · obtain ⟨_, rfl⟩ := List.getElem?_eq_some_iff.mp hl
        exact settled_upper s.lyrics t hsorted k hset k' hk' hle
    · rcases hset.2 with h0 | ⟨l, hl, hle⟩
      · omega
      · obtain ⟨_, rfl⟩ := List.getElem?_eq_some_iff.mp hl
        exact settled_upper s.lyrics t hsorted k' hset' k hk hle

/-- C1, at the document with times `[0, 10, 20, 30]`: the hypotheses hold there, and
feeding `0, 5, 10, 15, 25, 12` from index `0`, each run starting at the previous
result, gives `0, 0, 1, 1, 2, 1`. -/
theorem timeupdate_resolves_current_line_witness :
    (∃ k, k < (linesAt [0, 10, 20, 30]).length ∧
      ((∃ l ∈ linesAt [0, 10, 20, 30], (l.time : ℚ) ≤ 12) →
        IsGreatest {i | ∃ h : i < (linesAt [0, 10, 20, 30]).length,
          (((linesAt [0, 10, 20, 30])[i]).time : ℚ) ≤ 12} k) ∧
      ((∀ l ∈ linesAt [0, 10, 20, 30], (12 : ℚ) < (l.time : ℚ)) → k = 0) ∧
      ∀ (s : PlayerState) (fuel : Nat), s.lyrics = linesAt [0, 10, 20, 30] →
        s.currentLine < (linesAt [0, 10, 20, 30]).length →
        (linesAt [0, 10, 20, 30]).length - 1 ≤ fuel →
        ∃ s', timeupdate fuel 12 s = .ok s' ∧ s'.currentLine = k) ∧
    advance (linesAt [0, 10, 20, 30]) 3 0 0 = some 0 ∧
    advance (linesAt [0, 10, 20, 30]) 3 5 0 = some 0 ∧
    advance (linesAt [0, 10, 20, 30]) 3 10 0 = some 1 ∧
    advance (linesAt [0, 10, 20, 30]) 3 15 1 = some 1 ∧
    advance (linesAt [0, 10, 20, 30]) 3 25 1 = some 2 ∧
    advance (linesAt [0, 10, 20, 30]) 3 12 2 = some 1 :=
  ⟨timeupdate_resolves_current_line (linesAt [0, 10, 20, 30]) 12 (by decide) (by decide),
    by decide, by decide, by decide, by decide, by decide, by decide⟩

/-- C2: on a document sorted by time, from any index in range and with enough
budget, the handler ends at index `0` when the playback time is before the first
line, and at the last index when it is at or after the last line. -/
theorem timeupdate_boundary (s : PlayerState) (t : ℚ) (fuel : Nat)
    (hsorted : s.lyrics.Pairwise (fun a b => a.time ≤ b.time))
    (hin : s.currentLine < s.lyrics.length) (hf : s.lyrics.length - 1 ≤ fuel) :
    ∃ s', timeupdate fuel t s = .ok s' ∧
      (t < (s.lyrics[0].time : ℚ) → s'.currentLine = 0) ∧
      ((s.lyrics[s.lyrics.length - 1].time : ℚ) ≤ t →
        s'.currentLine = s.lyrics.length - 1) := by
  obtain ⟨k, hk, hset, hrun⟩ := timeupdate_eq s t hin
  obtain ⟨html, hd⟩ := displayLyrics_ok false { s with currentLine := k } hk
  refine ⟨_, (hrun fuel hf).trans hd, ?_, ?_⟩
  · intro hlt
    show k = 0
    rcases hset.2 with h0 | ⟨l, hl, hle⟩
    · exact h0
    · obtain ⟨_, rfl⟩ := List.getElem?_eq_some_iff.mp hl
      have : (s.lyrics[0].time : ℚ) ≤ (s.lyrics[k].time : ℚ) := by
        exact_mod_cast sorted_time_le s.lyrics hsorted 0 k (by omega) hk
      linarith
  · intro hge
    show k = s.lyrics.length - 1
    by_contra hne
    have hk1 : k + 1 < s.lyrics.length := by omega
    have h1 := hset.1 s.lyrics[k + 1] (List.getElem?_eq_getElem hk1)
    have h2 : (s.lyrics[k + 1].time : ℚ) ≤ (s.lyrics[s.lyrics.length - 1].time : ℚ) := by
      exact_mod_cast sorted_time_le s.lyrics hsorted (k + 1) (s.lyrics.length - 1)
        (by omega) (by omega)
    linarith

/-- C2, at the document with times `[5, 10, 20]` started in the middle: before the
first line the handler ends at `0`, at the last line's time it ends at `2`. -/
theorem timeupdate_boundary_witness :
    (∃ s', timeupdate 2 20 ⟨linesAt [5, 10, 20], 1, false, false, none, []⟩ = .ok s' ∧
      ((20 : ℚ) < (((linesAt [5, 10, 20])[0]).time : ℚ) → s'.currentLine = 0) ∧
      (((((linesAt [5, 10, 20])[(linesAt [5, 10, 20]).length - 1]).time : ℚ)) ≤ 20 →
        s'.currentLine = (linesAt [5, 10, 20]).length - 1)) ∧
    advance (linesAt [5, 10, 20]) 2 3 1 = some 0 ∧
    advance (linesAt [5, 10, 20]) 2 20 1 = some 2 :=
  ⟨timeupdate_boundary ⟨linesAt [5, 10, 20], 1, false, false, none, []⟩ 20 2
      (by decide) (by decide) (by decide),
    by decide, by decide⟩

/-- C3: on any non-empty document, sorted or not, from any index in range and with
enough budget, the handler ends normally in a state that a second run at the same
time leaves unchanged: same `currentLine`, same rendered output. -/
theorem timeupdate_idempotent (s : PlayerState) (t : ℚ) (fuel : Nat)
    (hin : s.currentLine < s.lyrics.length) (hf : s.lyrics.length - 1 ≤ fuel) :
    ∃ s1, timeupdate fuel t s = .ok s1 ∧ timeupdate fuel t s1 = .ok s1 := by
  obtain ⟨k, hk, hset, hrun⟩ := timeupdate_eq s t hin
  obtain ⟨html, hd⟩ := displayLyrics_ok false { s with currentLine := k } hk
  refine ⟨_, (hrun fuel hf).trans hd, ?_⟩
  have h2 := timeupdate_settled { s with currentLine := k, innerHTML := html } t fuel
    (show s.lyrics.length ≠ 0 by omega) hset
  rw [h2]
  exact displayLyrics_idem false { s with currentLine := k } _ hk hd

/-- C3, on the unsorted document with times `[30, 0, 20, 10]`, started at index `3`
with playback time `5`. -/
theorem timeupdate_idempotent_witness :
    ∃ s1, timeupdate 3 5 ⟨linesAt [30, 0, 20, 10], 3, false, false, none, []⟩ = .ok s1 ∧
      timeupdate 3 5 s1 = .ok s1 :=
  timeupdate_idempotent ⟨linesAt [30, 0, 20, 10], 3, false, false, none, []⟩ 5 3
    (by decide) (by decide)

/-- C4: on any non-empty document, sorted or not, from any index in range, the
handler ends normally within `lyrics.length - 1` loop iterations in total, with
`currentLine` again in range and the document untouched; on an empty document it
returns at once and leaves the state unchanged. -/
theorem timeupdate_index_in_range (s : PlayerState) (t : ℚ) :
    (s.currentLine < s.lyrics.length →
      ∃ s', timeupdate (s.lyrics.length - 1) t s = .ok s' ∧
        s'.currentLine < s'.lyrics.length ∧ s'.lyrics = s.lyrics) ∧
    (s.lyrics = [] → ∀ fuel, timeupdate fuel t s = .ok s) := by
  constructor
  · intro hin
    obtain ⟨k, hk, hset, hrun⟩ := timeupdate_eq s t hin
    obtain ⟨html, hd⟩ := displayLyrics_ok false { s with currentLine := k } hk
    exact ⟨_, (hrun _ (le_refl _)).trans hd, hk, rfl⟩
  · intro hnil fuel
    unfold timeupdate
    rw [if_pos (by rw [hnil]; rfl)]

/-- C4, on the unsorted document with times `[30, 0, 20, 10]` started at index `3`,
and on the empty document. -/
theorem timeupdate_index_in_range_witness :
    (∃ s', timeupdate ((linesAt [30, 0, 20, 10]).length - 1) 5
        ⟨linesAt [30, 0, 20, 10], 3, false, false, none, []⟩ = .ok s' ∧
      s'.currentLine < s'.lyrics.length ∧ s'.lyrics = linesAt [30, 0, 20, 10]) ∧
    (∀ fuel, timeupdate fuel 5 ⟨[], 0, false, false, none, []⟩ =
      .ok ⟨[], 0, false, false, none, []⟩) :=
  ⟨(timeupdate_index_in_range ⟨linesAt [30, 0, 20, 10], 3, false, false, none, []⟩ 5).1
      (by decide),
    (timeupdate_index_in_range ⟨[], 0, false, false, none, []⟩ 5).2 rfl⟩

/-! ## Claims on the parser -/

/-- C5, at the line `[03:07] hello\r` (a line of a file with CRLF line ends): it is
`[`, two digits, `:`, two digits, `]` and the remainder ` hello\r`, which holds
characters that are not white space and trims to `hello`; the callback returns `null`
and the file `[03:07] hello\r\n[03:09] bye` keeps the entry of its last line only. -/
theorem parseLine_crlf_line_dropped :
    "[03:07] hello\r".toList =
        '[' :: '0' :: '3' :: ':' :: '0' :: '7' :: ']' :: " hello\r".toList ∧
      isDigit '0' = true ∧ isDigit '3' = true ∧ isDigit '7' = true ∧
      (∃ c ∈ " hello\r".toList, isWhiteSpace c = false) ∧
      trim " hello\r".toList = "hello".toList ∧
      parseLine "[03:07] hello\r".toList = none ∧
      (parseLyrics "[03:07] hello\r\n[03:09] bye".toList).lyrics =
        [⟨189, "bye".toList⟩] := by
  refine ⟨rfl, by decide, by decide, by decide, ⟨'h', by decide, by decide⟩, by decide,
    by decide, by decide⟩

/-- The entry of a line with no line terminator in its text: a line `[` mm `:` ss `]`
r, with mm and ss two decimal digits each (no range check) and a remainder r that
holds a character that is not white space and no line terminator from its first such
character on, gives the entry with time `mm * 60 + ss` and text r trimmed; every time
the callback produces is at most `99 * 60 + 99`. -/
theorem parseLine_timed_entry (m1 m2 s1 s2 : Char) (r : List Char)
    (hm1 : isDigit m1 = true) (hm2 : isDigit m2 = true)
    (hs1 : isDigit s1 = true) (hs2 : isDigit s2 = true)
    (hr : ∃ c ∈ r, isWhiteSpace c = false)
    (hlt : ∀ c ∈ r.dropWhile isWhiteSpace, isLineTerminator c = false) :
    parseLine ('[' :: m1 :: m2 :: ':' :: s1 :: s2 :: ']' :: r) =
        some { time := (digitValue m1 * 10 + digitValue m2) * 60 +
                 (digitValue s1 * 10 + digitValue s2),
               text := trim r } ∧
      (∀ line e, parseLine line = some e → e.time ≤ 99 * 60 + 99) := by
  refine ⟨?_, parseLine_time_le⟩
  rw [parseLine_of_digits m1 m2 s1 s2 r hm1 hm2 hs1 hs2,
    matchSpacesText_of_text r ((dropWhile_ne_nil_iff r).mpr hr) hlt]
  simp only [Option.map_some', trim_dropWhile]

/-- The entry of the line `[03:07] hello`, with the two lines of the specification
evaluated: `[03:07] hello` gives time `187` and text `hello`, `[00:75] x` gives time
`75`. -/
theorem parseLine_timed_entry_witness :
    (parseLine ('[' :: '0' :: '3' :: ':' :: '0' :: '7' :: ']' :: " hello".toList) =
        some { time := (digitValue '0' * 10 + digitValue '3') * 60 +
                 (digitValue '0' * 10 + digitValue '7'),
               text := trim " hello".toList } ∧
      (∀ line e, parseLine line = some e → e.time ≤ 99 * 60 + 99)) ∧
    parseLine "[03:07] hello".toList = some ⟨187, "hello".toList⟩ ∧
    parseLine "[00:75] x".toList = some ⟨75, "x".toList⟩ :=
  ⟨parseLine_timed_entry '0' '3' '0' '7' " hello".toList (by decide) (by decide)
      (by decide) (by decide) ⟨'h', by decide, by decide⟩ (by decide),
    by decide, by decide⟩

/-- C6, at the line `[03:07] x\r` (a line of a file with CRLF line ends): it has the
shape `[`, two digits, `:`, two digits, `]`, white space, text up to the end of the
line, with the text `x\r`; the callback returns `null`, and the file
`[03:07] x\r\n[03:08] y` keeps the entry of its last line only. -/
theorem parseLine_crlf_shape_dropped :
    TimedLineShape (fun _ => True) "[03:07] x\r".toList ∧
      parseLine "[03:07] x\r".toList = none ∧
      (parseLyrics "[03:07] x\r\n[03:08] y".toList).lyrics = [⟨188, "y".toList⟩] := by
  refine ⟨⟨'0', '3', '0', '7', [' '], ['x', '\r'], rfl, by decide, by decide, by decide,
    by decide, by decide, by decide, fun _ _ => trivial⟩, by decide, by decide⟩

/-- The lines that the pattern matches: a line yields an entry if and only if it is
`[`, two decimal digits, `:`, two decimal digits, `]`, optional white space, then at
least one character of text, none of them a line terminator, up to the end of the
line; a line that yields no entry leaves the entries of the lines around it as they
are. -/
theorem parseLine_matches_iff_shape (line : List Char) :
    ((parseLine line).isSome = true ↔
        TimedLineShape (fun c => isLineTerminator c = false) line) ∧
      (parseLine line = none → ∀ before after : List (List Char),
        (before ++ line :: after).filterMap parseLine =
          before.filterMap parseLine ++ after.filterMap parseLine) := by
  refine ⟨⟨?_, ?_⟩, ?_⟩
  · intro h
    obtain ⟨m1, m2, s1, s2, rest, rfl, h1, h2, h3, h4, hrest⟩ := parseLine_isSome line h
    obtain ⟨ws, txt, rfl, hws, hne, hlt⟩ := (matchSpacesText_isSome_iff rest).mp hrest
    exact ⟨m1, m2, s1, s2, ws, txt, rfl, h1, h2, h3, h4, hws, hne, hlt⟩
  · rintro ⟨m1, m2, s1, s2, ws, txt, rfl, h1, h2, h3, h4, hws, hne, hlt⟩
    rw [parseLine_of_digits m1 m2 s1 s2 _ h1 h2 h3 h4, Option.isSome_map']
    exact (matchSpacesText_isSome_iff _).mpr ⟨ws, txt, rfl, hws, hne, hlt⟩
  · intro hnone before after
    rw [List.filterMap_append, List.filterMap_cons_none hnone]

/-- Lines that yield no entry: `not a lyric`, `[3:07] x`, `[003:07] x`,
`[03:07]` and a timed line after two spaces yield no entry, and the lines around
`not a lyric` keep their entries. -/
theorem parseLine_matches_iff_shape_witness :
    (∀ before after : List (List Char),
        (before ++ "not a lyric".toList :: after).filterMap parseLine =
          before.filterMap parseLine ++ after.filterMap parseLine) ∧
      parseLine "not a lyric".toList = none ∧ parseLine "[3:07] x".toList = none ∧
      parseLine "[003:07] x".toList = none ∧ parseLine "[03:07]".toList = none ∧
      parseLine "  [03:07] x".toList = none ∧
      (parseLyrics "[00:01] a\nnot a lyric\n[00:02] b".toList).lyrics =
        [⟨1, "a".toList⟩, ⟨2, "b".toList⟩] :=
  ⟨(parseLine_matches_iff_shape "not a lyric".toList).2 (by decide),
    by decide, by decide, by decide, by decide, by decide, by decide⟩

/-- C7, at the file `[00:10] ` (a timed line whose remainder is one space): the
`lyrics` array holds one entry, and its text is the empty string. -/
theorem parseLyrics_empty_text :
    (parseLyrics "[00:10] ".toList).lyrics = [⟨10, []⟩] := by
  decide

/-- C8, at the file `[TITLE] My Song\r\n[00:01] a` (CRLF line ends): the first
non-blank line begins with `[TITLE]`, its remainder holds characters that are not
white space and trims to `My Song`, and no title is set. -/
theorem parseLyrics_crlf_title_dropped :
    nonBlankLines "[TITLE] My Song\r\n[00:01] a".toList =
        ["[TITLE]".toList ++ " My Song\r".toList, "[00:01] a".toList] ∧
      (∃ c ∈ " My Song\r".toList, isWhiteSpace c = false) ∧
      trim " My Song\r".toList = "My Song".toList ∧
      (parseLyrics "[TITLE] My Song\r\n[00:01] a".toList).titleEvent = none := by
  refine ⟨by decide, ⟨'M', by decide, by decide⟩, by decide, by decide⟩

/-- The title line with no line terminator in its text: the title is set to `ttl` if
and only if the first non-blank line is `[TITLE]` followed by a remainder that holds
a character that is not white space and no line terminator from its first such
character on, and `ttl` is that remainder trimmed; the title line is then not among
the lines parsed as timed lines; and a line that begins with `[TITLE]` yields no
entry wherever it stands. -/
theorem parseLyrics_title (text : List Char) :
    (∀ ttl, (parseLyrics text).titleEvent = some ttl ↔
        ∃ r rest, nonBlankLines text = ("[TITLE]".toList ++ r) :: rest ∧
          (∃ c ∈ r, isWhiteSpace c = false) ∧
          (∀ c ∈ r.dropWhile isWhiteSpace, isLineTerminator c = false) ∧
          ttl = trim r) ∧
      (∀ r rest, nonBlankLines text = ("[TITLE]".toList ++ r) :: rest →
        (∃ c ∈ r, isWhiteSpace c = false) →
        (∀ c ∈ r.dropWhile isWhiteSpace, isLineTerminator c = false) →
        (parseLyrics text).lyrics = rest.filterMap parseLine) ∧
      (∀ r, parseLine ("[TITLE]".toList ++ r) = none) := by
  refine ⟨?_, ?_, parseLine_title⟩
  · intro ttl
    constructor
    · intro h
      obtain ⟨r, rest, m, hlines, hm, hne, rfl⟩ :=
        extractTitle_dispatched (nonBlankLines text) ttl h
      obtain ⟨-, hlt, hsub, hdrop⟩ := matchSpacesText_eq_some r m hm
      have hex : ∃ c ∈ m, isWhiteSpace c = false := by
        by_contra hno
        apply hne
        rw [trim_eq_nil_iff]
        intro c hc
        by_contra hc'
        exact hno ⟨c, hc, by simpa using hc'⟩
      obtain ⟨c, hc, hcws⟩ := hex
      have hr : ∃ c ∈ r, isWhiteSpace c = false := ⟨c, hsub c hc, hcws⟩
      have hmr := hdrop ((dropWhile_ne_nil_iff r).mpr hr)
      refine ⟨r, rest, hlines, hr, ?_, ?_⟩
      · rw [← hmr]; exact hlt
      · rw [hmr, trim_dropWhile]
    · rintro ⟨r, rest, hlines, hr, hlt, rfl⟩
      show dispatchedTitle (extractTitle (nonBlankLines text)).1 = some (trim r)
      rw [hlines, extractTitle_title,
        matchSpacesText_of_text r ((dropWhile_ne_nil_iff r).mpr hr) hlt]
      simp only [dispatchedTitle, trim_dropWhile]
      rw [if_pos (trim_ne_nil_of_text r hr)]
  · intro r rest hlines hr hlt
    show (extractTitle (nonBlankLines text)).2.filterMap parseLine = _
    rw [hlines, extractTitle_title,
      matchSpacesText_of_text r ((dropWhile_ne_nil_iff r).mpr hr) hlt]

/-- The title of the file `[TITLE] My Song\n[00:01] a`: the title is `My Song` and
the `lyrics` array holds the entry of the second line only; a `[TITLE]` line that
comes second sets no title. -/
theorem parseLyrics_title_witness :
    (parseLyrics "[TITLE] My Song\n[00:01] a".toList).lyrics =
        ["[00:01] a".toList].filterMap parseLine ∧
      (parseLyrics "[TITLE] My Song\n[00:01] a".toList).titleEvent =
        some "My Song".toList ∧
      (parseLyrics "[TITLE] My Song\n[00:01] a".toList).lyrics = [⟨1, "a".toList⟩] ∧
      (parseLyrics "[00:01] a\n[TITLE] My Song".toList).titleEvent = none :=
  ⟨(parseLyrics_title "[TITLE] My Song\n[00:01] a".toList).2.1 " My Song".toList
      ["[00:01] a".toList] (by decide) ⟨'M', by decide, by decide⟩ (by decide),
    by decide, by decide, by decide⟩

/-- C9: the `lyrics` array is the in-order image of the lines of the file that the
timed-line pattern matches, one entry for each: the blank lines and the title line
removed before the callback runs match nothing; so when the times of the matching
lines do not decrease in file order, the array is sorted by time. -/
theorem parseLyrics_in_file_order (text : List Char) :
    (parseLyrics text).lyrics = (splitNewline text).filterMap parseLine ∧
      (∀ line ∈ splitNewline text, trim line = [] → parseLine line = none) ∧
      (((splitNewline text).filterMap (fun line => (parseLine line).map LyricLine.time)).Pairwise
          (fun a b => a ≤ b) →
        (parseLyrics text).lyrics.Pairwise (fun a b => a.time ≤ b.time)) := by
  refine ⟨parseLyrics_lyrics text, fun line _ h => parseLine_blank line h, ?_⟩
  intro h
  rw [parseLyrics_lyrics]
  have hmap : (splitNewline text).filterMap (fun line => (parseLine line).map LyricLine.time) =
      ((splitNewline text).filterMap parseLine).map LyricLine.time := by
    rw [List.map_filterMap]
  rw [hmap, List.pairwise_map] at h
  exact h

/-- C9, at a file with a title, a blank line, a line that matches nothing and three
timed lines in increasing order. -/
theorem parseLyrics_in_file_order_witness :
    (parseLyrics "[TITLE] t\n[00:01] a\n\nfoo\n[00:05] b\n[01:00] c".toList).lyrics.Pairwise
        (fun a b => a.time ≤ b.time) ∧
      (parseLyrics "[TITLE] t\n[00:01] a\n\nfoo\n[00:05] b\n[01:00] c".toList).lyrics =
        [⟨1, "a".toList⟩, ⟨5, "b".toList⟩, ⟨60, "c".toList⟩] :=
  ⟨(parseLyrics_in_file_order
      "[TITLE] t\n[00:01] a\n\nfoo\n[00:05] b\n[01:00] c".toList).2.2 (by decide),
    by decide⟩

/-! ## Claims on the compact view -/

/-- C10: in compact mode, on a document with `currentLine` in range, `displayLyrics`
ends normally whatever `forceUpdate` and `userIsScrolling` are, and sets the output
to three rows in this order: the text of line `currentLine - 1` or the blank
placeholder when `currentLine = 0`; the text of line `currentLine`, the one row with
the class `current`; the text of line `currentLine + 1` or the blank placeholder when
`currentLine` is the last index.  On a one-line document both outer rows are
placeholders. -/
theorem displayLyrics_compact_three_rows (forceUpdate : Bool) (s : PlayerState)
    (hen : s.enlarged = false) (hk : s.currentLine < s.lyrics.length) :
    displayLyrics forceUpdate s = .ok { s with innerHTML := (
        divLine false
            (if h : 0 < s.currentLine then s.lyrics[s.currentLine - 1].text else nbsp) ++
          divLine true s.lyrics[s.currentLine].text ++
          divLine false
            (if h : s.currentLine < s.lyrics.length - 1 then
              s.lyrics[s.currentLine + 1].text else nbsp)) } ∧
      (s.lyrics.length = 1 →
        displayLyrics forceUpdate s = .ok { s with innerHTML := (
          divLine false nbsp ++ divLine true s.lyrics[s.currentLine].text ++
            divLine false nbsp) }) := by
  have h := displayLyrics_compact forceUpdate s hen hk
  refine ⟨h, ?_⟩
  intro hone
  rw [h]
  unfold compactHTML
  rw [dif_neg (by omega), dif_neg (by omega)]

/-- C10, on a three-line document at its middle line, not forced and with
`userIsScrolling` set, with the output spelled out; and on a one-line document. -/
theorem displayLyrics_compact_three_rows_witness :
    (displayLyrics false
        ⟨[⟨0, "a".toList⟩, ⟨10, "b".toList⟩, ⟨20, "c".toList⟩], 1, false, true, none, []⟩ =
      .ok ⟨[⟨0, "a".toList⟩, ⟨10, "b".toList⟩, ⟨20, "c".toList⟩], 1, false, true, none,
        ("<div class='lyric-line'>a</div>" ++ "<div class='lyric-line current'>b</div>" ++
          "<div class='lyric-line'>c</div>").toList⟩) ∧
    (displayLyrics true ⟨[⟨0, "a".toList⟩], 0, false, false, none, []⟩ =
      .ok ⟨[⟨0, "a".toList⟩], 0, false, false, none,
        ("<div class='lyric-line'>&nbsp;</div>" ++ "<div class='lyric-line current'>a</div>" ++
          "<div class='lyric-line'>&nbsp;</div>").toList⟩) :=
  ⟨(displayLyrics_compact_three_rows false
      ⟨[⟨0, "a".toList⟩, ⟨10, "b".toList⟩, ⟨20, "c".toList⟩], 1, false, true, none, []⟩
      rfl (by decide)).1,
    (displayLyrics_compact_three_rows true ⟨[⟨0, "a".toList⟩], 0, false, false, none, []⟩
      rfl (by decide)).2 rfl⟩

/-! ## The enlarged rendering -/

theorem currentMarks_eq_range (lyrics : List LyricLine) (k : Nat) :
    currentMarks lyrics k = (List.range lyrics.length).map (fun i => decide (i = k)) := by
  unfold currentMarks
  rw [← List.enum_map_fst lyrics, List.map_map]
  rfl

theorem count_marks_range (k : Nat) :
    ∀ n, ((List.range n).map (fun i => decide (i = k))).count true =
      if k < n then 1 else 0 := by
  intro n
  induction n with
  | zero => simp
  | succ n ih =>
    rw [List.range_succ, List.map_append, List.count_append, ih]
    simp only [List.map_cons, List.map_nil, List.count_singleton]
    by_cases h1 : k < n
    · have h2 : ¬ n = k := by omega
      have h3 : k < n + 1 := by omega
      simp [h1, h2, h3]
    · by_cases h2 : n = k
      · have h3 : k < n + 1 := by omega
        simp [h1, h2, h3]
      · have h3 : ¬ k < n + 1 := by omega
        simp [h1, h2, h3]

theorem renderEnlarged_eq_zipWith (lyrics : List LyricLine) (k : Nat) :
    renderEnlarged lyrics k =
      List.intercalate " ".toList
        (List.zipWith spanWord (currentMarks lyrics k) (lyrics.map LyricLine.text)) := by
  unfold renderEnlarged currentMarks
  congr 1
  apply List.ext_getElem?
  intro i
  simp only [List.getElem?_map, List.getElem?_enum, List.getElem?_zipWith]
  cases lyrics[i]? <;> simp

theorem renderEnlarged_spans (lyrics : List LyricLine) (k : Nat) :
    ∃ spans : List (List Char),
      renderEnlarged lyrics k = List.intercalate " ".toList spans ∧
      spans.length = lyrics.length ∧
      ∀ i (h : i < lyrics.length),
        spans[i]? = some (spanWord (decide (i = k)) lyrics[i].text) := by
  refine ⟨lyrics.enum.map (fun p : Nat × LyricLine => spanWord (decide (p.1 = k)) p.2.text),
    rfl, by simp, ?_⟩
  intro i h
  simp [List.getElem?_enum, List.getElem?_eq_getElem h]

/-! ## Claims on the rendering, the toggle and the scroll handler -/

/-- The frame of `displayLyrics`: it returns with the state as it is when the mode is
enlarged, `userIsScrolling` is set and the call is not forced; in the enlarged mode
otherwise it sets the output to the enlarged rendering, and in the compact mode, with
the index in range, to the three rows.  The enlarged rendering is one span for each
line, in line order, joined by single spaces. -/
theorem displayLyrics_frame (forceUpdate : Bool) (s : PlayerState) :
    (s.enlarged = true → s.userIsScrolling = true → forceUpdate = false →
        displayLyrics forceUpdate s = .ok s) ∧
      (s.enlarged = true → (s.userIsScrolling = false ∨ forceUpdate = true) →
        displayLyrics forceUpdate s =
          .ok { s with innerHTML := renderEnlarged s.lyrics s.currentLine }) ∧
      (s.enlarged = false → ∀ hk : s.currentLine < s.lyrics.length,
        displayLyrics forceUpdate s =
          .ok { s with innerHTML := compactHTML s.lyrics s.currentLine hk }) ∧
      (∃ spans : List (List Char),
        renderEnlarged s.lyrics s.currentLine = List.intercalate " ".toList spans ∧
        spans.length = s.lyrics.length ∧
        ∀ i (h : i < s.lyrics.length),
          spans[i]? = some (spanWord (decide (i = s.currentLine)) s.lyrics[i].text)) := by
  refine ⟨?_, ?_, ?_, renderEnlarged_spans s.lyrics s.currentLine⟩
  · intro hen hsc hf
    rw [displayLyrics_enlarged forceUpdate s hen, hsc, hf]
    rfl
  · intro hen h
    rw [displayLyrics_enlarged forceUpdate s hen]
    rcases h with h | h <;> simp [h]
  · intro hen hk
    exact displayLyrics_compact forceUpdate s hen hk

/-- The frame of `displayLyrics` on a two-line document: suppressed and not forced
the state stays, forced it gets the two spans joined by a space, and in compact mode
it gets the three rows. -/
theorem displayLyrics_frame_witness :
    displayLyrics false
        ⟨[⟨0, "a".toList⟩, ⟨10, "b".toList⟩], 1, true, true, some 2000, "old".toList⟩ =
      .ok ⟨[⟨0, "a".toList⟩, ⟨10, "b".toList⟩], 1, true, true, some 2000, "old".toList⟩ ∧
    displayLyrics true
        ⟨[⟨0, "a".toList⟩, ⟨10, "b".toList⟩], 1, true, true, some 2000, "old".toList⟩ =
      .ok ⟨[⟨0, "a".toList⟩, ⟨10, "b".toList⟩], 1, true, true, some 2000,
        ("<span class='lyric-word'>a</span>" ++ " " ++
          "<span class='lyric-word current'>b</span>").toList⟩ ∧
    displayLyrics false
        ⟨[⟨0, "a".toList⟩, ⟨10, "b".toList⟩], 1, false, true, none, "old".toList⟩ =
      .ok ⟨[⟨0, "a".toList⟩, ⟨10, "b".toList⟩], 1, false, true, none,
        ("<div class='lyric-line'>a</div>" ++ "<div class='lyric-line current'>b</div>" ++
          "<div class='lyric-line'>&nbsp;</div>").toList⟩ :=
  ⟨(displayLyrics_frame false
      ⟨[⟨0, "a".toList⟩, ⟨10, "b".toList⟩], 1, true, true, some 2000, "old".toList⟩).1
      rfl rfl rfl,
    (displayLyrics_frame true
      ⟨[⟨0, "a".toList⟩, ⟨10, "b".toList⟩], 1, true, true, some 2000, "old".toList⟩).2.1
      rfl (Or.inr rfl),
    (displayLyrics_frame false
      ⟨[⟨0, "a".toList⟩, ⟨10, "b".toList⟩], 1, false, true, none, "old".toList⟩).2.2.1
      rfl (by decide)⟩

/-- C11, at the empty document in compact mode: `displayLyrics`, forced or not,
reads `lyrics[0].text` of the empty array and throws, so the output is not replaced;
the state is the one that two toggles from the first state of the page leave, the
second of which throws in this way.  In enlarged mode the forced call on the empty
document ends normally with the empty output. -/
theorem displayLyrics_compact_empty_document :
    displayLyrics true ⟨[], 0, false, false, none, "old".toList⟩ =
        .typeError ⟨[], 0, false, false, none, "old".toList⟩ ∧
      displayLyrics false ⟨[], 0, false, true, none, "old".toList⟩ =
        .typeError ⟨[], 0, false, true, none, "old".toList⟩ ∧
      step .click (initialState "old".toList) = .ok ⟨[], 0, true, false, none, []⟩ ∧
      step .click ⟨[], 0, true, false, none, []⟩ =
        .typeError ⟨[], 0, false, false, none, []⟩ ∧
      displayLyrics true ⟨[], 0, true, true, none, "old".toList⟩ =
        .ok ⟨[], 0, true, true, none, []⟩ := by
  decide

/-- C12: on a document with the index in range, the toggle ends normally, flips the
mode, clears `userIsScrolling`, keeps `currentLine` (and the document and the timer),
and sets the output to the rendering of the new mode whatever `userIsScrolling` was.
The enlarged rendering is the spans of the lines with their marks, and exactly one
mark is set, the one of line `currentLine`. -/
theorem toggleClick_flips_and_renders (s : PlayerState)
    (hk : s.currentLine < s.lyrics.length) :
    (s.enlarged = false →
        toggleClick s = .ok ⟨s.lyrics, s.currentLine, true, false, s.scrollTimeout,
          renderEnlarged s.lyrics s.currentLine⟩) ∧
      (s.enlarged = true →
        toggleClick s = .ok ⟨s.lyrics, s.currentLine, false, false, s.scrollTimeout,
          compactHTML s.lyrics s.currentLine hk⟩) ∧
      renderEnlarged s.lyrics s.currentLine =
        List.intercalate " ".toList
          (List.zipWith spanWord (currentMarks s.lyrics s.currentLine)
            (s.lyrics.map LyricLine.text)) ∧
      (currentMarks s.lyrics s.currentLine).length = s.lyrics.length ∧
      (currentMarks s.lyrics s.currentLine).count true = 1 ∧
      (currentMarks s.lyrics s.currentLine)[s.currentLine]? = some true := by
  refine ⟨?_, ?_, renderEnlarged_eq_zipWith _ _, ?_, ?_, ?_⟩
  · intro hen
    have h1 : (!s.enlarged) = true := by simp [hen]
    unfold toggleClick
    rw [displayLyrics_enlarged true
      { s with enlarged := !s.enlarged, userIsScrolling := false } h1]
    simp [hen]
  · intro hen
    have h1 : (!s.enlarged) = false := by simp [hen]
    unfold toggleClick
    rw [displayLyrics_compact true
      { s with enlarged := !s.enlarged, userIsScrolling := false } h1 hk]
    simp [hen]
  · simp [currentMarks]
  · rw [currentMarks_eq_range, count_marks_range, if_pos hk]
  · simp [currentMarks, List.getElem?_enum, List.getElem?_eq_getElem hk]

/-- C12, on a five-line document at index `2`, in compact mode with
`userIsScrolling` set: the toggle renders the five lines, line `2` alone marked. -/
theorem toggleClick_flips_and_renders_witness :
    toggleClick ⟨[⟨0, "a".toList⟩, ⟨10, "b".toList⟩, ⟨20, "c".toList⟩, ⟨30, "d".toList⟩,
        ⟨40, "e".toList⟩], 2, false, true, none, []⟩ =
      .ok ⟨[⟨0, "a".toList⟩, ⟨10, "b".toList⟩, ⟨20, "c".toList⟩, ⟨30, "d".toList⟩,
        ⟨40, "e".toList⟩], 2, true, false, none,
        ("<span class='lyric-word'>a</span> <span class='lyric-word'>b</span> " ++
          "<span class='lyric-word current'>c</span> <span class='lyric-word'>d</span> " ++
          "<span class='lyric-word'>e</span>").toList⟩ ∧
    currentMarks [⟨0, "a".toList⟩, ⟨10, "b".toList⟩, ⟨20, "c".toList⟩, ⟨30, "d".toList⟩,
        ⟨40, "e".toList⟩] 2 = [false, false, true, false, false] :=
  ⟨(toggleClick_flips_and_renders ⟨[⟨0, "a".toList⟩, ⟨10, "b".toList⟩, ⟨20, "c".toList⟩,
      ⟨30, "d".toList⟩, ⟨40, "e".toList⟩], 2, false, true, none, []⟩ (by decide)).1 rfl,
    by decide⟩

/-- C13: the scroll handler leaves the whole state as it is in compact mode; in
enlarged mode it sets `userIsScrolling` and puts a timer of 2000 ms in the place of
the pending one; in both modes the document, `currentLine`, the mode and the output
stay. -/
theorem scroll_sets_suppression_only (s : PlayerState) :
    (s.enlarged = false → scroll s = s) ∧
      (s.enlarged = true →
        scroll s = ⟨s.lyrics, s.currentLine, true, true, some 2000, s.innerHTML⟩) ∧
      (scroll s).lyrics = s.lyrics ∧ (scroll s).currentLine = s.currentLine ∧
      (scroll s).enlarged = s.enlarged ∧ (scroll s).innerHTML = s.innerHTML := by
  unfold scroll
  cases hen : s.enlarged <;> simp [hen]

/-- C13, in compact mode with a timer pending, and in enlarged mode with 700 ms left
on the pending timer. -/
theorem scroll_sets_suppression_only_witness :
    scroll ⟨linesAt [0, 10], 1, false, false, some 700, "out".toList⟩ =
        ⟨linesAt [0, 10], 1, false, false, some 700, "out".toList⟩ ∧
      scroll ⟨linesAt [0, 10], 1, true, false, some 700, "out".toList⟩ =
        ⟨linesAt [0, 10], 1, true, true, some 2000, "out".toList⟩ :=
  ⟨(scroll_sets_suppression_only
      ⟨linesAt [0, 10], 1, false, false, some 700, "out".toList⟩).1 rfl,
    (scroll_sets_suppression_only
      ⟨linesAt [0, 10], 1, true, false, some 700, "out".toList⟩).2.1 rfl⟩

/-! ## The handlers on a state with the index in range -/

theorem timeupdate_of_scans (s : PlayerState) (t : ℚ) (fuel j f1 k f2 : Nat)
    (hne : s.lyrics.length ≠ 0)
    (h1 : scanForward s.lyrics t fuel s.currentLine = some (j, f1))
    (h2 : scanBackward s.lyrics t f1 j = .ok (k, f2)) :
    timeupdate fuel t s = displayLyrics false { s with currentLine := k } := by
  unfold timeupdate
  rw [if_neg hne, h1]
  simp only [h2]

theorem step_inRange (e : Event) (s : PlayerState)
    (hin : s.currentLine < s.lyrics.length) :
    ∃ s', step e s = .ok s' ∧ s'.lyrics = s.lyrics ∧ s'.currentLine < s'.lyrics.length := by
  cases e with
  | timeupdate t =>
    obtain ⟨k, hk, -, hrun⟩ := timeupdate_eq s t hin
    obtain ⟨html, hd⟩ := displayLyrics_ok false { s with currentLine := k } hk
    exact ⟨_, (hrun _ (le_refl _)).trans hd, rfl, hk⟩
  | click =>
    obtain ⟨html, hd⟩ := displayLyrics_ok true
      { s with enlarged := !s.enlarged, userIsScrolling := false } hin
    exact ⟨_, hd, rfl, hin⟩
  | scroll =>
    refine ⟨scroll s, rfl, ?_, ?_⟩ <;> unfold scroll <;> split <;> simp [hin]
  | elapse ms =>
    obtain ⟨html, hd⟩ := displayLyrics_ok true
      { s with userIsScrolling := false, scrollTimeout := none } hin
    show ∃ s', elapse ms s = .ok s' ∧ _
    unfold elapse
    cases hto : s.scrollTimeout with
    | none => exact ⟨s, rfl, rfl, hin⟩
    | some left =>
      simp only
      by_cases hlt : ms < left
      · rw [if_pos hlt]
        exact ⟨_, rfl, rfl, hin⟩
      · rw [if_neg hlt]
        exact ⟨_, hd, rfl, hin⟩

theorem run_inRange (evs : List Event) :
    ∀ s : PlayerState, s.currentLine < s.lyrics.length →
      ∃ s', run evs s = .ok s' ∧ s'.lyrics = s.lyrics ∧
        s'.currentLine < s'.lyrics.length := by
  induction evs with
  | nil => intro s hin; exact ⟨s, rfl, rfl, hin⟩
  | cons e es ih =>
    intro s hin
    obtain ⟨s1, h1, hl1, hin1⟩ := step_inRange e s hin
    obtain ⟨s2, h2, hl2, hin2⟩ := ih s1 hin1
    refine ⟨s2, ?_, hl2.trans hl1, hin2⟩
    rw [run, h1]
    exact h2

/-! ## The suppression -/

theorem step_timeupdate_suppressed (s : PlayerState) (t : ℚ)
    (hen : s.enlarged = true) (hsc : s.userIsScrolling = true)
    (hin : s.currentLine < s.lyrics.length) :
    ∃ k, k < s.lyrics.length ∧ Settled s.lyrics t k ∧
      step (.timeupdate t) s = .ok { s with currentLine := k } ∧
      step (.timeupdate t) { s with userIsScrolling := false } =
        .ok { s with userIsScrolling := false, currentLine := k,
                     innerHTML := (renderEnlarged s.lyrics k) } := by
  obtain ⟨k, hk, hset, hrun⟩ := scans_settle s.lyrics t s.currentLine hin
  obtain ⟨j, f1, f2, h1, h2⟩ := hrun (s.lyrics.length - 1) (le_refl _)
  refine ⟨k, hk, hset, ?_, ?_⟩
  · show timeupdate (s.lyrics.length - 1) t s = _
    rw [timeupdate_of_scans s t _ j f1 k f2 (by omega) h1 h2,
      displayLyrics_enlarged false { s with currentLine := k } hen]
    simp [hsc]
  · show timeupdate (s.lyrics.length - 1) t { s with userIsScrolling := false } = _
    rw [timeupdate_of_scans { s with userIsScrolling := false } t _ j f1 k f2
        (by show s.lyrics.length ≠ 0; omega) h1 h2,
      displayLyrics_enlarged false
        { s with userIsScrolling := false, currentLine := k } hen]
    simp

theorem step_quiet (e : Event) (s : PlayerState) (hsup : Suppressed s)
    (hin : s.currentLine < s.lyrics.length) (hq : quietEvent s e = true) :
    ∃ s', step e s = .ok s' ∧ Suppressed s' ∧ s'.innerHTML = s.innerHTML ∧
      s'.lyrics = s.lyrics ∧ s'.currentLine < s'.lyrics.length := by
  obtain ⟨hen, hsc, left, hto, hpos⟩ := hsup
  cases e with
  | timeupdate t =>
    obtain ⟨k, hk, -, hstep, -⟩ := step_timeupdate_suppressed s t hen hsc hin
    exact ⟨_, hstep, ⟨hen, hsc, left, hto, hpos⟩, rfl, rfl, hk⟩
  | click => simp [quietEvent] at hq
  | scroll =>
    refine ⟨⟨s.lyrics, s.currentLine, true, true, some 2000, s.innerHTML⟩, ?_,
      ⟨rfl, rfl, 2000, rfl, by omega⟩, rfl, rfl, hin⟩
    show Outcome.ok (scroll s) = _
    unfold scroll
    simp [hen]
  | elapse ms =>
    have hlt : ms < left := by simpa [quietEvent, hto] using hq
    refine ⟨{ s with scrollTimeout := some (left - ms) }, ?_,
      ⟨hen, hsc, left - ms, rfl, by omega⟩, rfl, rfl, hin⟩
    show elapse ms s = _
    unfold elapse
    rw [hto]
    simp only
    rw [if_pos hlt]

theorem run_quiet (evs : List Event) :
    ∀ s : PlayerState, Suppressed s → s.currentLine < s.lyrics.length → Quiet evs s →
      ∃ s', run evs s = .ok s' ∧ Suppressed s' ∧ s'.innerHTML = s.innerHTML ∧
        s'.lyrics = s.lyrics ∧ s'.currentLine < s'.lyrics.length := by
  induction evs with
  | nil => intro s hsup hin _; exact ⟨s, rfl, hsup, rfl, rfl, hin⟩
  | cons e es ih =>
    intro s hsup hin hq
    obtain ⟨s1, h1, hsup1, hh1, hl1, hin1⟩ := step_quiet e s hsup hin hq.1
    obtain ⟨s2, h2, hsup2, hh2, hl2, hin2⟩ := ih s1 hsup1 hin1 (hq.2 s1 h1)
    refine ⟨s2, ?_, hsup2, hh2.trans hh1, hl2.trans hl1, hin2⟩
    rw [run, h1]
    exact h2

theorem suppressed_scroll (s : PlayerState) (hen : s.enlarged = true) :
    Suppressed (scroll s) ∧ (scroll s).scrollTimeout = some 2000 ∧
      (scroll s).innerHTML = s.innerHTML ∧ (scroll s).lyrics = s.lyrics ∧
      (scroll s).currentLine = s.currentLine := by
  unfold scroll Suppressed
  simp [hen]

/-- C14: after a scroll signal in enlarged mode the suppression is on with a timer of
2000 ms; along every sequence of playback updates, scroll signals and waits with no
toggle and with the timer not firing, the handlers end normally, the suppression
stays on and the output stays the one before the scroll; in a suppressed state a
playback update moves `currentLine` to the index it reaches without suppression and
touches nothing else, a scroll signal sets the timer to 2000 ms again, a wait shorter
than the time left only shortens the timer, and a wait that reaches it clears
`userIsScrolling` and sets the output to the enlarged rendering at the `currentLine`
of that moment. -/
theorem suppression_scenario (s : PlayerState) (hen : s.enlarged = true)
    (hin : s.currentLine < s.lyrics.length) :
    (Suppressed (scroll s) ∧ (scroll s).scrollTimeout = some 2000) ∧
      (∀ evs, Quiet evs (scroll s) →
        ∃ s', run evs (scroll s) = .ok s' ∧ Suppressed s' ∧ s'.innerHTML = s.innerHTML ∧
          s'.lyrics = s.lyrics ∧ s'.currentLine < s'.lyrics.length) ∧
      (∀ s' : PlayerState, Suppressed s' → s'.currentLine < s'.lyrics.length →
        (∀ t, ∃ k, k < s'.lyrics.length ∧ Settled s'.lyrics t k ∧
          step (.timeupdate t) s' = .ok { s' with currentLine := k } ∧
          step (.timeupdate t) { s' with userIsScrolling := false } =
            .ok { s' with userIsScrolling := false, currentLine := k,
                          innerHTML := (renderEnlarged s'.lyrics k) }) ∧
        step .scroll s' = .ok { s' with scrollTimeout := some 2000 } ∧
        (∀ left ms, s'.scrollTimeout = some left → ms < left →
          step (.elapse ms) s' = .ok { s' with scrollTimeout := some (left - ms) }) ∧
        (∀ left ms, s'.scrollTimeout = some left → left ≤ ms →
          step (.elapse ms) s' =
            .ok { s' with userIsScrolling := false, scrollTimeout := none,
                          innerHTML := (renderEnlarged s'.lyrics s'.currentLine) })) := by
  obtain ⟨hsup, hto, hhtml, hlyr, hcur⟩ := suppressed_scroll s hen
  refine ⟨⟨hsup, hto⟩, ?_, ?_⟩
  · intro evs hq
    obtain ⟨s', hrun, hsup', hh, hl, hin'⟩ :=
      run_quiet evs (scroll s) hsup (by rw [hcur, hlyr]; exact hin) hq
    exact ⟨s', hrun, hsup', hh.trans hhtml, hl.trans hlyr, hin'⟩
  · intro s' hsup' hin'
    obtain ⟨hen', hsc', left', hto', hpos'⟩ := hsup'
    refine ⟨fun t => step_timeupdate_suppressed s' t hen' hsc' hin', ?_, ?_, ?_⟩
    · show Outcome.ok (scroll s') = _
      unfold scroll
      simp only [hen', Bool.not_true, Bool.false_eq_true, if_false]
      congr 1
      cases s'
      simp_all
    · intro left ms hl hlt
      show elapse ms s' = _
      unfold elapse
      rw [hl]
      simp only
      rw [if_pos hlt]
    · intro left ms hl hle
      show elapse ms s' = _
      unfold elapse scrollTimerFired
      rw [hl]
      simp only
      rw [if_neg (by omega), displayLyrics_enlarged true
        { s' with userIsScrolling := false, scrollTimeout := none } hen']
      simp

/-- C14, on the document with times `[0, 10, 20]` in enlarged mode at index `0` with
the output `old`: after a scroll, a playback update at time `15` 500 ms later moves
`currentLine` to `1` and keeps the output; a second scroll sets the timer to 2000 ms
again; when the timer fires the output is the enlarged rendering at index `1`. -/
theorem suppression_scenario_witness :
    (Suppressed (scroll ⟨linesAt [0, 10, 20], 0, true, false, none, "old".toList⟩) ∧
      (scroll ⟨linesAt [0, 10, 20], 0, true, false, none, "old".toList⟩).scrollTimeout =
        some 2000) ∧
    run [.scroll, .elapse 500, .timeupdate 15]
        ⟨linesAt [0, 10, 20], 0, true, false, none, "old".toList⟩ =
      .ok ⟨linesAt [0, 10, 20], 1, true, true, some 1500, "old".toList⟩ ∧
    run [.scroll, .elapse 500, .timeupdate 15, .scroll, .elapse 1999]
        ⟨linesAt [0, 10, 20], 0, true, false, none, "old".toList⟩ =
      .ok ⟨linesAt [0, 10, 20], 1, true, true, some 1, "old".toList⟩ ∧
    run [.scroll, .elapse 500, .timeupdate 15, .elapse 1500]
        ⟨linesAt [0, 10, 20], 0, true, false, none, "old".toList⟩ =
      .ok ⟨linesAt [0, 10, 20], 1, true, false, none,
        renderEnlarged (linesAt [0, 10, 20]) 1⟩ :=
  ⟨(suppression_scenario ⟨linesAt [0, 10, 20], 0, true, false, none, "old".toList⟩
      rfl (by decide)).1,
    by decide, by decide, by decide⟩

/-! ## Claims on `loadLyrics` and the fallback path -/

theorem noLyricsHTML_second : noLyricsHTML[1]? = some 's' := by decide

theorem divLine_second (b : Bool) (c rest : List Char) :
    (divLine b c ++ rest)[1]? = some 'd' := by
  cases b <;> rfl

/-- C15: when the text of the file gives no entry, `loadLyrics` sets the output to the
indicator `No lyrics found` in every mode, with the empty document; when it gives at
least one entry and the index is in range, the state it leaves is the one of the
forced call `displayLyrics(true)` on the new document.  The indicator is not a row of
the compact view followed by anything. -/
theorem loadLyrics_empty_or_render (typeErrorMessage body : List Char)
    (s : PlayerState) :
    ((parseLyrics body).lyrics = [] →
        loadLyrics typeErrorMessage (.text body) s =
          { s with lyrics := [], innerHTML := noLyricsHTML }) ∧
      ((parseLyrics body).lyrics ≠ [] →
        s.currentLine < (parseLyrics body).lyrics.length →
        displayLyrics true { s with lyrics := (parseLyrics body).lyrics } =
          .ok (loadLyrics typeErrorMessage (.text body) s)) ∧
      (∀ (b : Bool) (c rest : List Char), noLyricsHTML ≠ divLine b c ++ rest) := by
  refine ⟨?_, ?_, ?_⟩
  · intro h
    unfold loadLyrics
    simp [h]
  · intro hne hin
    obtain ⟨html, hd⟩ := displayLyrics_ok true
      { s with lyrics := (parseLyrics body).lyrics } hin
    have hpos : (parseLyrics body).lyrics.length > 0 := List.length_pos.mpr hne
    unfold loadLyrics
    simp only [hpos, if_true, hd]
  · intro b c rest h
    have h1 := noLyricsHTML_second
    rw [h, divLine_second] at h1
    cases h1

/-- C15, from the first state of the page: the empty file, a file of blank lines and
a file of lines that match nothing give the indicator; a file with one timed line
gives the three rows of the compact view. -/
theorem loadLyrics_empty_or_render_witness :
    loadLyrics [] (.text []) (initialState "old".toList) =
        ⟨[], 0, false, false, none, noLyricsHTML⟩ ∧
      displayLyrics true
          { initialState "old".toList with
            lyrics := (parseLyrics "[00:05] a".toList).lyrics } =
        .ok (loadLyrics [] (.text "[00:05] a".toList) (initialState "old".toList)) ∧
      loadLyrics [] (.text "\n \n".toList) (initialState "old".toList) =
        ⟨[], 0, false, false, none, noLyricsHTML⟩ ∧
      loadLyrics [] (.text "foo\n[1:2] bar".toList) (initialState "old".toList) =
        ⟨[], 0, false, false, none, noLyricsHTML⟩ ∧
      loadLyrics [] (.text "[00:05] a".toList) (initialState "old".toList) =
        ⟨[⟨5, "a".toList⟩], 0, false, false, none,
          ("<div class='lyric-line'>&nbsp;</div>" ++
            "<div class='lyric-line current'>a</div>" ++
            "<div class='lyric-line'>&nbsp;</div>").toList⟩ :=
  ⟨(loadLyrics_empty_or_render [] [] (initialState "old".toList)).1 (by decide),
    (loadLyrics_empty_or_render [] "[00:05] a".toList (initialState "old".toList)).2.1
      (by decide) (by decide),
    by decide, by decide, by decide⟩

/-- C16, at a path that ends in two slashes and at a query that holds `stop=` inside
another name: the fallback resolves to `/content//lyrics.txt` and to
`/content/null/lyrics.txt`; with one slash at the end, or none, it resolves to the
path of the last segment. -/
theorem fallbackLyricsPath_at_failing_inputs :
    fallbackLyricsPath [] [] "/detail/welcome-center//".toList =
        "/content//lyrics.txt".toList ∧
      fallbackLyricsPath "?busstop=3".toList [("busstop".toList, "3".toList)]
          "/detail/welcome-center".toList = "/content/null/lyrics.txt".toList ∧
      fallbackLyricsPath [] [] "/detail/welcome-center/".toList =
        "/content/welcome-center/lyrics.txt".toList ∧
      fallbackLyricsPath [] [] "/detail/welcome-center".toList =
        "/content/welcome-center/lyrics.txt".toList ∧
      fallbackLyricsPath "?stop=gates".toList [("stop".toList, "gates".toList)]
          "/detail/welcome-center".toList = "/content/gates/lyrics.txt".toList := by
  refine ⟨by decide, by decide, by decide, by decide, by decide⟩

/-! ## TourDetailLoader -/

theorem mem_supportedLanguages (l : List Char) :
    l ∈ supportedLanguages ↔ l = "en".toList ∨ l = "zh".toList := by
  simp [supportedLanguages]

theorem isSupported_some (l : List Char) :
    isSupported (some l) = true ↔ l ∈ supportedLanguages := by
  rw [mem_supportedLanguages]
  constructor
  · intro h
    simp only [isSupported, Bool.and_eq_true] at h
    exact (mem_supportedLanguages l).mp (List.elem_iff.mp h.2)
  · rintro (rfl | rfl) <;> decide

theorem isSupported_eq_false (x : Option (List Char))
    (h : ∀ l, x = some l → l ∉ supportedLanguages) : isSupported x = false := by
  cases x with
  | none => rfl
  | some l =>
    cases hs : isSupported (some l) with
    | false => rfl
    | true => exact absurd ((isSupported_some l).mp hs) (h l rfl)

theorem languageConfigured_of_mem (l : List Char) (h : l ∈ supportedLanguages) :
    languageConfigured l = true := by
  rcases (mem_supportedLanguages l).mp h with rfl | rfl <;> decide

theorem setLanguage_of_url (st : LoaderState) (l : List Char)
    (hl : st.currentLanguage = some l) (hs : l ∈ supportedLanguages) :
    setLanguage st = { st with currentLanguage := some l, storedLanguage := some l } := by
  unfold setLanguage
  simp [hl, (isSupported_some l).mpr hs, languageConfigured_of_mem l hs]

theorem setLanguage_of_stored (st : LoaderState) (x : List Char)
    (hu : ∀ l, st.currentLanguage = some l → l ∉ supportedLanguages)
    (hx : st.storedLanguage = some x) (hs : x ∈ supportedLanguages) :
    setLanguage st = { st with currentLanguage := some x, storedLanguage := some x } := by
  unfold setLanguage
  rw [isSupported_eq_false _ hu]
  simp [hx, (isSupported_some x).mpr hs, languageConfigured_of_mem x hs]

theorem setLanguage_of_default (st : LoaderState)
    (hu : ∀ l, st.currentLanguage = some l → l ∉ supportedLanguages)
    (hx : ∀ x, st.storedLanguage = some x → x ∉ supportedLanguages) :
    setLanguage st =
      { st with currentLanguage := some defaultLanguage,
                storedLanguage := some defaultLanguage } := by
  unfold setLanguage
  rw [isSupported_eq_false _ hu, isSupported_eq_false _ hx]
  have : languageConfigured defaultLanguage = true := by decide
  simp [this]

/-- C17: `setLanguage` keeps the language of the URL when it is `en` or `zh`;
otherwise it takes the stored preference when that is `en` or `zh`; otherwise the
default `zh`.  The result is always `en` or `zh`, and the stored preference afterwards
is the result. -/
theorem setLanguage_priority (st : LoaderState) :
    (∀ l, st.currentLanguage = some l → l ∈ supportedLanguages →
        (setLanguage st).currentLanguage = some l) ∧
      ((∀ l, st.currentLanguage = some l → l ∉ supportedLanguages) →
        ∀ x, st.storedLanguage = some x → x ∈ supportedLanguages →
          (setLanguage st).currentLanguage = some x) ∧
      ((∀ l, st.currentLanguage = some l → l ∉ supportedLanguages) →
        (∀ x, st.storedLanguage = some x → x ∉ supportedLanguages) →
          (setLanguage st).currentLanguage = some defaultLanguage) ∧
      (∃ l ∈ supportedLanguages, (setLanguage st).currentLanguage = some l) ∧
      (setLanguage st).storedLanguage = (setLanguage st).currentLanguage ∧
      supportedLanguages = ["en".toList, "zh".toList] ∧
      defaultLanguage = "zh".toList := by
  refine ⟨?_, ?_, ?_, ?_, rfl, rfl, rfl⟩
  · intro l hl hs
    rw [setLanguage_of_url st l hl hs]
  · intro hu x hx hs
    rw [setLanguage_of_stored st x hu hx hs]
  · intro hu hx
    rw [setLanguage_of_default st hu hx]
  · by_cases h1 : ∃ l, st.currentLanguage = some l ∧ l ∈ supportedLanguages
    · obtain ⟨l, hl, hs⟩ := h1
      exact ⟨l, hs, by rw [setLanguage_of_url st l hl hs]⟩
    · have hu : ∀ l, st.currentLanguage = some l → l ∉ supportedLanguages :=
        fun l hl hs => h1 ⟨l, hl, hs⟩
      by_cases h2 : ∃ x, st.storedLanguage = some x ∧ x ∈ supportedLanguages
      · obtain ⟨x, hx, hs⟩ := h2
        exact ⟨x, hs, by rw [setLanguage_of_stored st x hu hx hs]⟩
      · have hx : ∀ x, st.storedLanguage = some x → x ∉ supportedLanguages :=
          fun x hx hs => h2 ⟨x, hx, hs⟩
        exact ⟨defaultLanguage, by decide, by rw [setLanguage_of_default st hu hx]⟩

/-- C17, at the URL language `en` with `zh` stored, at the URL language `fr` with
`en` stored, and at no URL language with `de` stored. -/
theorem setLanguage_priority_witness :
    (setLanguage ⟨none, some "en".toList, none, some "zh".toList⟩).currentLanguage =
        some "en".toList ∧
      (setLanguage ⟨none, some "fr".toList, none, some "en".toList⟩).currentLanguage =
        some "en".toList ∧
      (setLanguage ⟨none, none, none, some "de".toList⟩).currentLanguage =
        some defaultLanguage ∧
      setLanguage ⟨none, some "fr".toList, none, none⟩ =
        ⟨none, some "zh".toList, none, some "zh".toList⟩ :=
  ⟨(setLanguage_priority ⟨none, some "en".toList, none, some "zh".toList⟩).1
      "en".toList rfl (by decide),
    (setLanguage_priority ⟨none, some "fr".toList, none, some "en".toList⟩).2.1
      (fun l hl => by cases hl; decide) "en".toList rfl (by decide),
    (setLanguage_priority ⟨none, none, none, some "de".toList⟩).2.2.1
      (fun l hl => by cases hl) (fun x hx => by cases hx; decide),
    by decide⟩

/-! ## The path segments -/

theorem splitOnChar_no_sep (sep : Char) (a : List Char) (h : ∀ c ∈ a, c ≠ sep) :
    splitOnChar sep a = [a] := by
  induction a with
  | nil => rfl
  | cons c cs ih =>
    rw [splitOnChar, if_neg (h c (by simp)), ih (fun x hx => h x (List.mem_cons_of_mem _ hx))]

theorem splitOnChar_append_sep (sep : Char) (a b : List Char) (h : ∀ c ∈ a, c ≠ sep) :
    splitOnChar sep (a ++ sep :: b) = a :: splitOnChar sep b := by
  induction a with
  | nil => rw [List.nil_append, splitOnChar, if_pos rfl]
  | cons c cs ih =>
    rw [List.cons_append, splitOnChar, if_neg (h c (by simp)),
      ih (fun x hx => h x (List.mem_cons_of_mem _ hx))]

theorem paramsHas_of_get (params : SearchParams) (name v : List Char)
    (h : paramsGet params name = some v) : paramsHas params name = true := by
  unfold paramsGet at h
  unfold paramsHas
  cases hf : params.find? (fun p => decide (p.1 = name)) with
  | none => rw [hf] at h; cases h
  | some p =>
    have hm := List.mem_of_find?_eq_some hf
    have hp := List.find?_some hf
    exact List.any_eq_true.mpr ⟨p, hm, hp⟩

theorem pathSegments_tour (l s : List Char) (hl : l ≠ []) (hs : s ≠ [])
    (hls : '/' ∉ l) (hss : '/' ∉ s) :
    (splitOnChar '/' ("/tour/".toList ++ (l ++ '/' :: s))).filter (fun x => x ≠ []) =
      ["tour".toList, l, s] := by
  have hsplit : splitOnChar '/' ("/tour/".toList ++ (l ++ '/' :: s)) =
      [[], "tour".toList, l, s] := by
    show splitOnChar '/' ([] ++ '/' :: ("tour".toList ++ '/' :: (l ++ '/' :: s))) = _
    rw [splitOnChar_append_sep _ _ _ (by simp),
      splitOnChar_append_sep _ "tour".toList _ (by decide),
      splitOnChar_append_sep _ l _ (fun c hc h => hls (by subst h; exact hc)),
      splitOnChar_no_sep _ s (fun c hc h => hss (by subst h; exact hc))]
  rw [hsplit]
  simp [hl, hs]

theorem pathSegments_detail (s : List Char) (hs : s ≠ []) (hss : '/' ∉ s) :
    (splitOnChar '/' ("/detail/".toList ++ s)).filter (fun x => x ≠ []) =
      ["detail".toList, s] := by
  have hsplit : splitOnChar '/' ("/detail/".toList ++ s) = [[], "detail".toList, s] := by
    show splitOnChar '/' ([] ++ '/' :: ("detail".toList ++ '/' :: s)) = _
    rw [splitOnChar_append_sep _ _ _ (by simp),
      splitOnChar_append_sep _ "detail".toList _ (by decide),
      splitOnChar_no_sep _ s (fun c hc h => hss (by subst h; exact hc))]
  rw [hsplit]
  simp [hs]

theorem parseUrl_legacy (st : LoaderState) (params : SearchParams) (pathname : List Char)
    (last : List Char) (hno : paramsHas params "stop".toList = false)
    (htour : "tour".toList ∉ (splitOnChar '/' pathname).filter (fun x => x ≠ []))
    (hlast : ((splitOnChar '/' pathname).filter (fun x => x ≠ [])).getLast? = some last) :
    parseUrl params pathname st = { st with currentStop := some last } := by
  have hc : ((splitOnChar '/' pathname).filter (fun x => x ≠ [])).contains "tour".toList =
      false := by
    cases h : ((splitOnChar '/' pathname).filter (fun x => x ≠ [])).contains "tour".toList
    · rfl
    · exact absurd (List.elem_iff.mp h) htour
  have hpos : ((splitOnChar '/' pathname).filter (fun x => x ≠ [])).length > 0 := by
    cases hseg : (splitOnChar '/' pathname).filter (fun x => x ≠ []) with
    | nil => rw [hseg] at hlast; cases hlast
    | cons a as => simp
  rw [List.getLast?_eq_getElem?] at hlast
  unfold parseUrl
  simp only [hno, hc, hpos, hlast, Bool.false_eq_true, if_false, if_true]

/-- C18, as stated, fails at the path `/detail/tour` with no query: there is no `stop`
parameter, the path is not of the form `/tour/l/s`, its last non-empty segment is
`tour`, and `parseUrl` sets no stop. -/
theorem parseUrl_formats_counterexample :
    paramsHas [] "stop".toList = false ∧
      (splitOnChar '/' "/detail/tour".toList).filter (fun x => x ≠ []) =
        ["detail".toList, "tour".toList] ∧
      (parseUrl [] "/detail/tour".toList (LoaderState.init none)).currentStop = none := by
  refine ⟨by decide, by decide, by decide⟩

/-- C18, amended: a query with the parameters `stop = s` and `lang = l` gives the
stop `s` and the language `l` whatever the path is; with no `stop` parameter, the
path `/tour/l/s` (two non-empty segments) gives the stop `s` and the language `l`;
with no `stop` parameter and no path segment equal to `tour`, the stop is the last
non-empty segment of the path and the language is left as it was, as for `/detail/s`
with `s` other than `tour`. -/
theorem parseUrl_formats (st : LoaderState) (params : SearchParams) :
    (∀ pathname s l, paramsGet params "stop".toList = some s →
        paramsGet params "lang".toList = some l →
        parseUrl params pathname st =
          { st with currentStop := some s, currentLanguage := some l }) ∧
      (paramsHas params "stop".toList = false →
        ∀ s l : List Char, s ≠ [] → l ≠ [] → '/' ∉ s → '/' ∉ l →
          parseUrl params ("/tour/".toList ++ (l ++ '/' :: s)) st =
            { st with currentStop := some s, currentLanguage := some l }) ∧
      (paramsHas params "stop".toList = false →
        ∀ pathname last,
          "tour".toList ∉ (splitOnChar '/' pathname).filter (fun x => x ≠ []) →
          ((splitOnChar '/' pathname).filter (fun x => x ≠ [])).getLast? = some last →
          parseUrl params pathname st = { st with currentStop := some last }) ∧
      (paramsHas params "stop".toList = false →
        ∀ s : List Char, s ≠ [] → '/' ∉ s → s ≠ "tour".toList →
          parseUrl params ("/detail/".toList ++ s) st =
            { st with currentStop := some s }) := by
  refine ⟨?_, ?_, ?_, ?_⟩
  · intro pathname s l hs hl
    unfold parseUrl
    simp only [paramsHas_of_get params _ s hs, hs, hl, if_true]
  · intro hno s l hs hl hss hls
    unfold parseUrl
    rw [pathSegments_tour l s hl hs hls hss]
    have hc : ["tour".toList, l, s].contains "tour".toList = true := by simp
    have hi : ["tour".toList, l, s].indexOf "tour".toList = 0 := by
      simp [List.indexOf_cons]
    simp only [hno, hc, hi, Bool.false_eq_true, if_false, if_true]
    simp
  · intro hno pathname last htour hlast
    exact parseUrl_legacy st params pathname last hno htour hlast
  · intro hno s hs hss hst
    apply parseUrl_legacy st params _ s hno
    · rw [pathSegments_detail s hs hss]
      intro hmem
      rcases List.mem_cons.mp hmem with h | h
      · exact absurd h (by decide)
      · rcases List.mem_cons.mp h with h | h
        · exact hst h.symm
        · cases h
    · rw [pathSegments_detail s hs hss]
      rfl

/-- C18, amended, at the three formats: the query `?stop=welcome-center&lang=zh` on
the path `/tour/en/other`, the path `/tour/zh/welcome-center` and the path
`/detail/welcome-center`. -/
theorem parseUrl_formats_witness :
    parseUrl [("stop".toList, "welcome-center".toList), ("lang".toList, "zh".toList)]
        "/tour/en/other".toList (LoaderState.init none) =
      { LoaderState.init none with
        currentStop := some "welcome-center".toList, currentLanguage := some "zh".toList } ∧
    parseUrl [] ("/tour/".toList ++ ("zh".toList ++ '/' :: "welcome-center".toList))
        (LoaderState.init none) =
      { LoaderState.init none with
        currentStop := some "welcome-center".toList, currentLanguage := some "zh".toList } ∧
    parseUrl [] ("/detail/".toList ++ "welcome-center".toList) (LoaderState.init none) =
      { LoaderState.init none with currentStop := some "welcome-center".toList } ∧
    parseUrl [] "/detail/welcome-center".toList (LoaderState.init none) =
      ⟨some "welcome-center".toList, none, none, none⟩ :=
  ⟨(parseUrl_formats (LoaderState.init none)
      [("stop".toList, "welcome-center".toList), ("lang".toList, "zh".toList)]).1
      "/tour/en/other".toList "welcome-center".toList "zh".toList (by decide) (by decide),
    (parseUrl_formats (LoaderState.init none) []).2.1 (by decide)
      "welcome-center".toList "zh".toList (by decide) (by decide) (by decide) (by decide),
    (parseUrl_formats (LoaderState.init none) []).2.2.2 (by decide)
      "welcome-center".toList (by decide) (by decide) (by decide),
    by decide⟩

/-- C19, at the table `{"welcome-center": 0}` and the stop `welcome-center`: the entry
is the number `0`, `validateStop` returns `false` and sets no `stopInfo`; with the
number `1` in its place it returns `true` with the order `1` and both titles
`welcome center`. -/
theorem validateStop_order_zero :
    validateStop (some [("welcome-center".toList, .number 0)])
        ⟨some "welcome-center".toList, some "zh".toList, none, some "zh".toList⟩ =
      (false, ⟨some "welcome-center".toList, some "zh".toList, none, some "zh".toList⟩) ∧
    validateStop (some [("welcome-center".toList, .number 1)])
        ⟨some "welcome-center".toList, some "zh".toList, none, some "zh".toList⟩ =
      (true, ⟨some "welcome-center".toList, some "zh".toList,
        some ⟨"welcome-center".toList, some 1,
          ⟨"welcome center".toList, "welcome center".toList⟩⟩, some "zh".toList⟩) := by
  refine ⟨by decide, by decide⟩

/-- C20, at the empty document: after the load the output is the indicator; one
toggle ends normally and leaves the empty string as the output; a second toggle
makes `displayLyrics` read `lyrics[0]` of the empty array and ends with an uncaught
`TypeError`.  The same two toggles before the load finishes end in the same way. -/
theorem toggle_on_empty_document :
    loadLyrics [] (.text []) (initialState "old".toList) =
        ⟨[], 0, false, false, none, noLyricsHTML⟩ ∧
      run [.click] (loadLyrics [] (.text []) (initialState "old".toList)) =
        .ok ⟨[], 0, true, false, none, []⟩ ∧
      run [.click, .click] (loadLyrics [] (.text []) (initialState "old".toList)) =
        .typeError ⟨[], 0, false, false, none, []⟩ ∧
      run [.click, .click] (initialState "old".toList) =
        .typeError ⟨[], 0, false, false, none, []⟩ := by
  refine ⟨by decide, by decide, by decide, by decide⟩

/-! ## The flags along every trace -/

theorem displayLyrics_cases (f : Bool) (s : PlayerState) :
    (∃ html, displayLyrics f s = .ok { s with innerHTML := html }) ∨
      displayLyrics f s = .typeError s := by
  rcases Bool.eq_false_or_eq_true s.enlarged with hen | hen
  · left
    rw [displayLyrics_enlarged f s hen]
    by_cases h : (s.userIsScrolling && !f) = true
    · exact ⟨s.innerHTML, by rw [if_pos h]⟩
    · exact ⟨_, by rw [if_neg h]⟩
  · by_cases hk : s.currentLine < s.lyrics.length
    · exact Or.inl ⟨_, displayLyrics_compact f s hen hk⟩
    · right
      have hnone : s.lyrics[s.currentLine]? = none :=
        List.getElem?_eq_none (by omega)
      unfold displayLyrics
      simp only [hen, Bool.false_and, Bool.false_eq_true, if_false, hnone]
      split <;> rfl

theorem displayLyrics_after_flags (f : Bool) (s d : PlayerState) :
    ((displayLyrics f s).after d).enlarged = s.enlarged ∧
      ((displayLyrics f s).after d).userIsScrolling = s.userIsScrolling := by
  rcases displayLyrics_cases f s with ⟨html, h⟩ | h <;> rw [h] <;> exact ⟨rfl, rfl⟩

theorem timeupdate_after_flags (fuel : Nat) (t : ℚ) (s : PlayerState) :
    ((timeupdate fuel t s).after s).enlarged = s.enlarged ∧
      ((timeupdate fuel t s).after s).userIsScrolling = s.userIsScrolling := by
  unfold timeupdate
  split
  · exact ⟨rfl, rfl⟩
  · cases scanForward s.lyrics t fuel s.currentLine with
    | none => exact ⟨rfl, rfl⟩
    | some p =>
      obtain ⟨c1, fuel1⟩ := p
      simp only
      cases scanBackward s.lyrics t fuel1 c1 with
      | outOfFuel => exact ⟨rfl, rfl⟩
      | typeError q => exact ⟨rfl, rfl⟩
      | ok q =>
        exact displayLyrics_after_flags false { s with currentLine := q.1 } s

theorem step_modeScoped (e : Event) (s : PlayerState) (h : ModeScoped s) :
    ModeScoped ((step e s).after s) := by
  cases e with
  | timeupdate t =>
    obtain ⟨h1, h2⟩ := timeupdate_after_flags (s.lyrics.length - 1) t s
    intro hs
    show ((timeupdate (s.lyrics.length - 1) t s).after s).enlarged = true
    rw [h1]
    apply h
    rw [← h2]
    exact hs
  | click =>
    obtain ⟨-, h2⟩ := displayLyrics_after_flags true
      { s with enlarged := !s.enlarged, userIsScrolling := false } s
    intro hs
    have hs' : ((displayLyrics true
        { s with enlarged := !s.enlarged, userIsScrolling := false }).after s).userIsScrolling
        = true := hs
    rw [h2] at hs'
    cases hs'
  | scroll =>
    show ModeScoped (scroll s)
    by_cases hen : s.enlarged = true
    · intro _
      unfold scroll
      simp [hen]
    · have hid : scroll s = s := by
        unfold scroll
        simp [hen]
      rw [hid]
      exact h
  | elapse ms =>
    show ModeScoped ((elapse ms s).after s)
    unfold elapse
    cases hto : s.scrollTimeout with
    | none => exact h
    | some left =>
      simp only
      by_cases hlt : ms < left
      · rw [if_pos hlt]
        exact h
      · rw [if_neg hlt]
        obtain ⟨-, h2⟩ := displayLyrics_after_flags true
          { s with userIsScrolling := false, scrollTimeout := none } s
        intro hs
        have hs' : ((displayLyrics true
            { s with userIsScrolling := false, scrollTimeout := none }).after
              s).userIsScrolling = true := hs
        rw [h2] at hs'
        cases hs'

theorem displayLyrics_ne_outOfFuel (f : Bool) (s : PlayerState) :
    displayLyrics f s ≠ .outOfFuel := by
  rcases displayLyrics_cases f s with ⟨html, h⟩ | h <;> rw [h] <;> intro hc <;> cases hc

theorem step_ne_outOfFuel (e : Event) (s : PlayerState) : step e s ≠ .outOfFuel := by
  cases e with
  | timeupdate t =>
    show timeupdate (s.lyrics.length - 1) t s ≠ .outOfFuel
    by_cases hk : s.currentLine < s.lyrics.length
    · obtain ⟨k, -, -, hrun⟩ := timeupdate_eq s t hk
      rw [hrun _ (le_refl _)]
      exact displayLyrics_ne_outOfFuel _ _
    · unfold timeupdate
      split
      · intro hc; cases hc
      · rename_i hne
        have hstop : ∀ l, s.lyrics[s.currentLine + 1]? = some l → t < (l.time : ℚ) := by
          intro l hl
          have := (List.getElem?_eq_some_iff.mp hl).1
          omega
        have hback : backwardCond s.lyrics t s.currentLine = none := by
          unfold backwardCond
          rw [if_pos (by omega), List.getElem?_eq_none (by omega)]
        rw [scanForward_stop s.lyrics t _ s.currentLine hstop]
        simp only
        cases hf : s.lyrics.length - 1 with
        | zero => simp [scanBackward, hback]
        | succ n => simp [scanBackward, hback]
  | click => exact displayLyrics_ne_outOfFuel _ _
  | scroll => intro hc; cases hc
  | elapse ms =>
    show elapse ms s ≠ .outOfFuel
    unfold elapse
    cases s.scrollTimeout with
    | none => intro hc; cases hc
    | some left =>
      simp only
      split
      · intro hc; cases hc
      · exact displayLyrics_ne_outOfFuel _ _

theorem runAll_modeScoped (evs : List Event) :
    ∀ s : PlayerState, ModeScoped s → ModeScoped (runAll evs s) := by
  induction evs with
  | nil => intro s h; exact h
  | cons e es ih => intro s h; exact ih _ (step_modeScoped e s h)

theorem loadLyrics_modeScoped (msg : List Char) (r : Fetched) (s : PlayerState)
    (h : ModeScoped s) : ModeScoped (loadLyrics msg r s) := by
  unfold loadLyrics
  cases r with
  | failed message => exact h
  | text body =>
    simp only
    split
    · rcases displayLyrics_cases true { s with lyrics := (parseLyrics body).lyrics } with
        ⟨html, hd⟩ | hd <;> rw [hd] <;> exact h
    · exact h

theorem run_eq_runAll (evs : List Event) :
    ∀ s s' : PlayerState, run evs s = .ok s' → runAll evs s = s' := by
  induction evs with
  | nil => intro s s' h; cases h; rfl
  | cons e es ih =>
    intro s s' h
    rw [run] at h
    cases hs : step e s with
    | ok s1 =>
      rw [hs] at h
      rw [runAll, hs]
      exact ih s1 s' h
    | typeError s1 => rw [hs] at h; cases h
    | outOfFuel => rw [hs] at h; cases h

/-! ## Claims on the reachable states and on unsorted documents -/

/-- C21: from a state with `userIsScrolling` clear, as the first state of the page
(compact mode) is, after any sequence of playback updates, scroll signals, toggles
and waits (timer expiries included), with the load of a document finishing anywhere
in between and with the handlers that throw counted, `userIsScrolling` set implies
the enlarged mode.  No handler uses up the budget of the model. -/
theorem suppression_is_mode_scoped (s0 : PlayerState)
    (hsup : s0.userIsScrolling = false) :
    (∀ evs, (runAll evs s0).userIsScrolling = true → (runAll evs s0).enlarged = true) ∧
      (∀ evs s', run evs s0 = .ok s' → s'.userIsScrolling = true → s'.enlarged = true) ∧
      (∀ evs1 msg r evs2,
        (runAll evs2 (loadLyrics msg r (runAll evs1 s0))).userIsScrolling = true →
          (runAll evs2 (loadLyrics msg r (runAll evs1 s0))).enlarged = true) ∧
      (∀ e s, step e s ≠ .outOfFuel) := by
  have h0 : ModeScoped s0 := by
    intro h
    rw [hsup] at h
    cases h
  refine ⟨fun evs => runAll_modeScoped evs s0 h0, ?_, ?_, step_ne_outOfFuel⟩
  · intro evs s' hrun
    rw [← run_eq_runAll evs s0 s' hrun]
    exact runAll_modeScoped evs s0 h0
  · intro evs1 msg r evs2
    exact runAll_modeScoped evs2 _
      (loadLyrics_modeScoped msg r _ (runAll_modeScoped evs1 s0 h0))

/-- C21, from the first state of the page: a scroll in compact mode sets nothing; a
toggle, a scroll and a toggle back leave `userIsScrolling` clear in compact mode, and
the timer that is still pending fires without setting it. -/
theorem suppression_is_mode_scoped_witness :
    (initialState []).enlarged = false ∧ (initialState []).userIsScrolling = false ∧
      ((runAll [.click, .scroll] (initialState [])).userIsScrolling = true →
        (runAll [.click, .scroll] (initialState [])).enlarged = true) ∧
      runAll [.scroll] (initialState []) = initialState [] ∧
      runAll [.click, .scroll] (initialState []) = ⟨[], 0, true, true, some 2000, []⟩ ∧
      runAll [.click, .scroll, .click] (initialState []) =
        ⟨[], 0, false, false, some 2000, []⟩ ∧
      runAll [.click, .scroll, .click, .elapse 2000] (initialState []) =
        ⟨[], 0, false, false, none, []⟩ :=
  ⟨rfl, rfl, (suppression_is_mode_scoped (initialState []) rfl).1 [.click, .scroll],
    by decide, by decide, by decide, by decide⟩

/-- C22: the file `[00:30] a`, `[00:20] b`, `[00:10] c` is parsed as it stands, with
the times `30, 20, 10` in file order and not sorted; at playback time `15` the
handler started at index `0` stays at `0`, whose time `30` is after the playback
time, and started at index `2` stays at `2`, the line with the greatest time at most
`15`. -/
theorem unsorted_document_depends_on_start :
    ∃ (text : List Char) (t : ℚ) (i j : Nat),
      (parseLyrics text).lyrics =
          [⟨30, "a".toList⟩, ⟨20, "b".toList⟩, ⟨10, "c".toList⟩] ∧
        ¬ (parseLyrics text).lyrics.Pairwise (fun a b => a.time ≤ b.time) ∧
        i < (parseLyrics text).lyrics.length ∧ j < (parseLyrics text).lyrics.length ∧
        advance (parseLyrics text).lyrics ((parseLyrics text).lyrics.length - 1) t i =
          some 0 ∧
        advance (parseLyrics text).lyrics ((parseLyrics text).lyrics.length - 1) t j =
          some 2 ∧
        ((parseLyrics text).lyrics.map LyricLine.time)[0]? = some 30 ∧ t < 30 ∧
        ((parseLyrics text).lyrics.map LyricLine.time)[2]? = some 10 ∧ (10 : ℚ) ≤ t :=
  ⟨"[00:30] a\n[00:20] b\n[00:10] c".toList, 15, 0, 2, by decide⟩

end LyricPlayer
